import Mathlib

/-!
# Verification of the enchat core against its specification

Shallow embedding of the `enchat` repository (an end-to-end encrypted
terminal chat client) and proofs settling the frozen claims about it.

Conventions of the embedding:
* Python dictionaries are modelled as insertion-ordered association lists
  (`lookupA` / `setA` / `updA` below reproduce `d[k]`, `d[k] = v` and
  in-place mutation of a present entry, with new keys appended at the end,
  exactly as CPython dicts behave).
* Byte strings are `List Nat`; text strings are Lean `String` / `List Char`.
* `time.time()` is passed in explicitly as an integer `now` parameter.
* The `cryptography.fernet` library is external to the repository; it is
  modelled as an ideal authenticated-encryption scheme: a token carries the
  key, an unforgeable tag (an injective encoding of key and message) and
  the message, and decryption succeeds exactly on well-formed tokens for
  the right key.  SHA-256 is likewise modelled as an injective digest.
* Functions that perform I/O (writing the assembled file, network posts)
  are modelled by their observable data: the bytes written, the items
  enqueued.
-/

/-! ## Python dict model -/

/-- `d.get(k)` / `k in d` on an insertion-ordered association list. -/
def lookupA {α β : Type} [DecidableEq α] : List (α × β) → α → Option β
  | [], _ => none
  | (k', v) :: rest, k => if k = k' then some v else lookupA rest k

/-- `d[k] = v`: update in place if present, else append at the end
(CPython dict insertion-order semantics). -/
def setA {α β : Type} [DecidableEq α] : List (α × β) → α → β → List (α × β)
  | [], k, v => [(k, v)]
  | (k', v') :: rest, k, v =>
    if k = k' then (k, v) :: rest else (k', v') :: setA rest k v

/-- Mutate the value stored under a present key (`d[k]['field'] = ...`);
a no-op when the key is absent. -/
def updA {α β : Type} [DecidableEq α] : List (α × β) → α → (β → β) → List (α × β)
  | [], _, _ => []
  | (k', v') :: rest, k, f =>
    if k = k' then (k', f v') :: rest else (k', v') :: updA rest k f

theorem lookupA_setA_self {α β : Type} [DecidableEq α]
    (m : List (α × β)) (k : α) (v : β) : lookupA (setA m k v) k = some v := by
  induction m with
  | nil => simp [setA, lookupA]
  | cons hd tl ih =>
    obtain ⟨k', v'⟩ := hd
    by_cases h : k = k' <;> simp [setA, lookupA, h, ih]

theorem lookupA_updA_self {α β : Type} [DecidableEq α]
    (m : List (α × β)) (k : α) (f : β → β) :
    lookupA (updA m k f) k = (lookupA m k).map f := by
  induction m with
  | nil => simp [updA, lookupA]
  | cons hd tl ih =>
    obtain ⟨k', v'⟩ := hd
    by_cases h : k = k' <;> simp [updA, lookupA, h, ih]

theorem lookupA_updA_ne {α β : Type} [DecidableEq α]
    (m : List (α × β)) (k k' : α) (f : β → β) (h : k' ≠ k) :
    lookupA (updA m k f) k' = lookupA m k' := by
  induction m with
  | nil => simp [updA]
  | cons hd tl ih =>
    obtain ⟨a, b⟩ := hd
    by_cases hk : k = a
    · subst hk
      simp [updA, lookupA, h, ih]
    · by_cases hk' : k' = a <;> simp [updA, lookupA, hk, hk', ih]

/-! ## Python string primitives -/

/-- `s.startswith(sep)` on character lists. -/
def pyStartsWith : List Char → List Char → Bool
  | [], _ => true
  | _ :: _, [] => false
  | c :: cs, d :: ds => if c = d then pyStartsWith cs ds else false

/-- Worker for `s.split(sep)` (non-empty `sep`): left-to-right scan,
non-overlapping matches; `skip` counts separator characters still being
consumed after a match, `acc` accumulates the current part reversed. -/
def pySplitAux (sep : List Char) : List Char → Nat → List Char → List (List Char)
  | [], _, acc => [acc.reverse]
  | _ :: rest, skip + 1, acc => pySplitAux sep rest skip acc
  | c :: rest, 0, acc =>
    if pyStartsWith sep (c :: rest) then
      acc.reverse :: pySplitAux sep rest (sep.length - 1) []
    else
      pySplitAux sep rest 0 (c :: acc)

/-- Python `s.split(sep)` for a non-empty separator. -/
def pySplit (sep s : List Char) : List (List Char) :=
  pySplitAux sep s 0 []

/-- `sep in s` (substring occurrence test, non-empty `sep`). -/
def hasSub (sep : List Char) : List Char → Bool
  | [] => false
  | c :: rest => pyStartsWith sep (c :: rest) || hasSub sep rest

theorem pyStartsWith_append_self (sep t : List Char) :
    pyStartsWith sep (sep ++ t) = true := by
  induction sep with
  | nil => rfl
  | cons c cs ih => simp [pyStartsWith, ih]

theorem pyStartsWith_iff (sep : List Char) : ∀ s : List Char,
    pyStartsWith sep s = true ↔ ∃ t, s = sep ++ t := by
  induction sep with
  | nil => intro s; simp [pyStartsWith]
  | cons c cs ih =>
    intro s
    match s with
    | [] =>
      simp only [pyStartsWith, List.cons_append]
      constructor
      · intro h; cases h
      · rintro ⟨t, ht⟩; cases ht
    | d :: ds =>
      simp only [pyStartsWith, List.cons_append]
      by_cases hcd : c = d
      · subst hcd
        rw [if_pos rfl, ih ds]
        constructor
        · rintro ⟨t, rfl⟩; exact ⟨t, rfl⟩
        · rintro ⟨t, ht⟩
          exact ⟨t, by simpa using ht⟩
      · rw [if_neg hcd]
        constructor
        · intro h; cases h
        · rintro ⟨t, ht⟩
          exact absurd (List.cons.injEq .. ▸ congrArg id ht).1.symm hcd

theorem pyStartsWith_take (s : List Char) : ∀ n : Nat,
    pyStartsWith (s.take n) s = true := by
  induction s with
  | nil => intro n; simp [List.take_nil, pyStartsWith]
  | cons c cs ih =>
    intro n
    match n with
    | 0 => simp [pyStartsWith]
    | n + 1 => simp [List.take, pyStartsWith, ih n]

theorem pySplitAux_skip (sep : List Char) : ∀ (d t acc : List Char),
    pySplitAux sep (d ++ t) d.length acc = pySplitAux sep t 0 acc := by
  intro d
  induction d with
  | nil => intro t acc; rfl
  | cons x d' ih => intro t acc; simpa [pySplitAux] using ih t acc

theorem pySplitAux_noSub (sep : List Char) : ∀ (s acc : List Char),
    hasSub sep s = false → pySplitAux sep s 0 acc = [acc.reverse ++ s] := by
  intro s
  induction s with
  | nil => intro acc _; simp [pySplitAux]
  | cons c rest ih =>
    intro acc h
    simp only [hasSub, Bool.or_eq_false_iff] at h
    rw [pySplitAux, if_neg (by simp [h.1]), ih (c :: acc) h.2]
    simp

theorem hasSub_single (c : Char) : ∀ s : List Char, c ∉ s → hasSub [c] s = false := by
  intro s
  induction s with
  | nil => intro _; rfl
  | cons d ds ih =>
    intro h
    have hdc : ¬c = d := fun hcd => h (hcd ▸ List.mem_cons_self d ds)
    simp only [hasSub, Bool.or_eq_false_iff]
    exact ⟨by simp [pyStartsWith, hdc], ih (fun hm => h (List.mem_cons_of_mem d hm))⟩

theorem pySplit_single (c : Char) : ∀ (a b : List Char), c ∉ a → c ∉ b →
    ∀ acc, pySplitAux [c] (a ++ c :: b) 0 acc = (acc.reverse ++ a) :: [b] := by
  intro a
  induction a with
  | nil =>
    intro b _ hb acc
    rw [List.nil_append, pySplitAux, if_pos (by simp [pyStartsWith])]
    simp only [List.length_cons, List.length_nil, Nat.zero_add, Nat.sub_self]
    rw [pySplitAux_noSub [c] b [] (hasSub_single c b hb)]
    simp
  | cons d a' ih =>
    intro b ha hb acc
    have hdc : ¬c = d := fun hcd => ha (hcd ▸ List.mem_cons_self d a')
    rw [List.cons_append, pySplitAux, if_neg (by simp [pyStartsWith, hdc]),
      ih b (fun hm => ha (List.mem_cons_of_mem d hm)) hb (d :: acc)]
    simp

/-- A non-empty separator that does not contain `x` and occurs neither in
`a` nor in `b` does not occur in `a ++ x :: b`. -/
theorem hasSub_append_cons (sep : List Char) (x : Char)
    (hsep : sep ≠ []) (hx : x ∉ sep) : ∀ a b : List Char,
    hasSub sep a = false → hasSub sep b = false →
    hasSub sep (a ++ x :: b) = false := by
  intro a
  induction a with
  | nil =>
    intro b _ hb
    rw [List.nil_append]
    match sep, hsep with
    | s₀ :: s', _ =>
      have hs₀ : ¬s₀ = x := fun h => hx (h ▸ List.mem_cons_self s₀ s')
      simp only [hasSub, Bool.or_eq_false_iff]
      exact ⟨by simp [pyStartsWith, hs₀], hb⟩
  | cons c a' ih =>
    intro b ha hb
    simp only [hasSub, Bool.or_eq_false_iff] at ha
    have htail : hasSub sep (a' ++ x :: b) = false := ih b ha.2 hb
    simp only [List.cons_append, hasSub, Bool.or_eq_false_iff]
    refine ⟨?_, by simpa using htail⟩
    by_contra hcon
    rw [Bool.not_eq_false] at hcon
    obtain ⟨t, ht⟩ := (pyStartsWith_iff sep _).mp hcon
    have ht' : (c :: a') ++ (x :: b) = sep ++ t := ht
    by_cases hlen : sep.length ≤ (c :: a').length
    · have htake : sep = (c :: a').take sep.length := by
        have := congrArg (List.take sep.length) ht'
        rw [List.take_append_of_le_length hlen,
          List.take_append_of_le_length (Nat.le_refl _), List.take_length] at this
        exact this.symm
      have : pyStartsWith sep (c :: a') = true := by
        rw [htake]; exact pyStartsWith_take (c :: a') sep.length
      rw [this] at ha
      exact absurd ha.1 (by simp)
    · push_neg at hlen
      have hxsep : x ∈ sep := by
        have hform := congrArg (List.take sep.length) ht'
        rw [List.take_append_of_le_length (Nat.le_refl _), List.take_length] at hform
        obtain ⟨k, hk⟩ : ∃ k, sep.length = (c :: a').length + (k + 1) := by
          refine ⟨sep.length - (c :: a').length - 1, ?_⟩
          omega
        rw [hk, List.take_append] at hform
        rw [← hform]
        simp
      exact hx hxsep

/-! ## Idealized cryptographic primitives (library collaborators) -/

/-- Injective encoding of a byte string into a natural number
(used to build unforgeable ideal MAC tags). -/
def encodeBytes : List Nat → Nat
  | [] => 0
  | b :: rest => Nat.pair b (encodeBytes rest) + 1

theorem encodeBytes_inj : Function.Injective encodeBytes := by
  intro a
  induction a with
  | nil => intro b h; cases b with
    | nil => rfl
    | cons x xs => simp [encodeBytes] at h
  | cons x xs ih =>
    intro b h
    cases b with
    | nil => simp [encodeBytes] at h
    | cons y ys =>
      simp only [encodeBytes, Nat.add_right_cancel_iff] at h
      rw [Nat.pair_eq_pair] at h
      rw [h.1, ih h.2]

/-- Ideal model of `Fernet(key).encrypt` over byte strings: the token is
`key ∥ tag ∥ message` with `tag` an injective function of key and message,
so any modification of any token byte is detected. -/
def fernetEnc (key : Nat) (msg : List Nat) : List Nat :=
  key :: Nat.pair key (encodeBytes msg) :: msg

/-- Ideal model of `Fernet(key).decrypt`: succeeds exactly on tokens
produced by `fernetEnc` with the same key, returning the message;
every other byte string is rejected (the library raises `InvalidToken`,
modelled as `none`). -/
def fernetDec (key : Nat) (tok : List Nat) : Option (List Nat) :=
  match tok with
  | k :: tag :: msg =>
    if k = key ∧ tag = Nat.pair key (encodeBytes msg) then some msg else none
  | _ => none

theorem fernetDec_enc (key : Nat) (msg : List Nat) :
    fernetDec key (fernetEnc key msg) = some msg := by
  simp [fernetDec, fernetEnc]

theorem fernetDec_wrong_key (key key' : Nat) (msg : List Nat) (h : key' ≠ key) :
    fernetDec key' (fernetEnc key msg) = none := by
  simp [fernetDec, fernetEnc]
  intro hk
  exact absurd hk.symm h

theorem fernetDec_valid (key : Nat) (tok msg : List Nat)
    (h : fernetDec key tok = some msg) : tok = fernetEnc key msg := by
  match tok with
  | [] => simp [fernetDec] at h
  | [k] => simp [fernetDec] at h
  | k :: tag :: m =>
    by_cases hc : k = key ∧ tag = Nat.pair key (encodeBytes m)
    · rw [fernetDec, if_pos hc, Option.some.injEq] at h
      subst h
      rw [fernetEnc, hc.1, hc.2]
    · rw [fernetDec, if_neg hc] at h
      exact absurd h (by simp)

/-- Ideal SHA-256 digest: modelled as an injective function of the hashed
bytes (`Digest.mk`), so distinct inputs never collide. -/
structure Digest where
  bytes : List Nat
deriving DecidableEq, Repr

/-! ## `enchat_lib/link_sharing.py` -/

/-- `LINK_SERVER_URL = "https://share.enchat.io"` -/
def LINK_SERVER_URL : String := "https://share.enchat.io"

/-- Ideal Fernet token for the link-sharing text payload (the URL-safe
base64 transport encoding of token and key applied by the source is an
invertible library encoding and is left implicit). -/
structure CTok where
  k : Nat
  tag : Nat
  msg : List Char
deriving DecidableEq, Repr

/-- Injective encoding of a character list (ideal tag material). -/
def encodeChars (s : List Char) : Nat :=
  encodeBytes (s.map Char.toNat)

/-- Ideal `Fernet(ephemeral_key).encrypt` for link payloads. -/
def cfernetEnc (key : Nat) (msg : List Char) : CTok :=
  ⟨key, Nat.pair key (encodeChars msg), msg⟩

/-- Ideal `Fernet(ephemeral_key).decrypt` for link payloads; `none`
models the raised `InvalidToken`. -/
def cfernetDec (key : Nat) (t : CTok) : Option (List Char) :=
  if t.k = key ∧ t.tag = Nat.pair key (encodeChars t.msg) then some t.msg else none

/-- `generate_link_components(room_name, room_secret, server_url)`:
encrypts `f"{room_name}|{server_url}|{room_secret}"` under a fresh
ephemeral key (passed in explicitly) and returns payload and key. -/
def generate_link_components (room_name room_secret server_url : List Char)
    (ephemeral_key : Nat) : CTok × Nat :=
  (cfernetEnc ephemeral_key (room_name ++ '|' :: (server_url ++ '|' :: room_secret)),
    ephemeral_key)

/-- Break a string at its first `'|'`; `none` when there is none.
Two chained applications model `decrypted_str.split('|', 2)` unpacked
into exactly three components. -/
def breakAtPipe : List Char → Option (List Char × List Char)
  | [] => none
  | c :: rest =>
    if c = '|' then some ([], rest)
    else (breakAtPipe rest).map (fun p => (c :: p.1, p.2))

/-- `decrypt_credentials(encrypted_payload, ephemeral_key)`: decrypts and
splits into `(room_name, server_url, room_secret)`.  `none` models the
exceptions the function lets escape (`InvalidToken`, unpack `ValueError`),
which its caller catches. -/
def decrypt_credentials (payload : CTok) (ephemeral_key : Nat) :
    Option (List Char × List Char × List Char) :=
  (cfernetDec ephemeral_key payload).bind fun s =>
    (breakAtPipe s).bind fun p =>
      (breakAtPipe p.2).map fun q => (p.1, q.1, q.2)

/-- `construct_share_url(session_id, key)`. -/
def construct_share_url (session_id key : String) : String :=
  LINK_SERVER_URL ++ "/join#" ++ session_id ++ ":" ++ key

/-- `parse_share_url(url)`: `_, fragment = url.split('/join#')` then
`session_id, key = fragment.split(':')`; `None` on any `ValueError`
(either split not yielding exactly two parts). -/
def parse_share_url (url : String) : Option (String × String) :=
  match pySplit "/join#".data url.data with
  | [_, fragment] =>
    match pySplit [':'] fragment with
    | [session_id, key] => some (⟨session_id⟩, ⟨key⟩)
    | _ => none
  | _ => none

theorem breakAtPipe_append (a b : List Char) (ha : '|' ∉ a) :
    breakAtPipe (a ++ '|' :: b) = some (a, b) := by
  induction a with
  | nil => simp [breakAtPipe]
  | cons c a' ih =>
    have hc : ¬c = '|' := fun h => ha (h ▸ List.mem_cons_self c a')
    rw [List.cons_append, breakAtPipe, if_neg hc,
      ih (fun hm => ha (List.mem_cons_of_mem c hm))]
    rfl

/-- Scanning `a ++ sep ++ t` where no occurrence of `sep` starts inside
`a` splits off exactly `a` and continues after the separator. -/
theorem pySplitAux_cross (sep : List Char) (hsep : sep ≠ []) :
    ∀ (a t acc : List Char),
      (∀ i, i < a.length → pyStartsWith sep (a.drop i ++ sep ++ t) = false) →
      pySplitAux sep (a ++ sep ++ t) 0 acc =
        (acc.reverse ++ a) :: pySplitAux sep t 0 [] := by
  intro a
  induction a with
  | nil =>
    intro t acc _
    match sep, hsep with
    | s₀ :: s', _ =>
      rw [List.nil_append, List.cons_append, pySplitAux,
        if_pos (by simpa using pyStartsWith_append_self (s₀ :: s') t)]
      have hskip := pySplitAux_skip (s₀ :: s') s' t []
      simp only [List.length_cons, Nat.add_sub_cancel]
      rw [hskip]
      simp
  | cons c a' ih =>
    intro t acc h
    have hhead : pyStartsWith sep ((c :: a') ++ sep ++ t) = false := by
      simpa using h 0 (Nat.succ_pos _)
    rw [List.cons_append, List.cons_append, pySplitAux,
      if_neg (by simpa using hhead)]
    have htail : ∀ i, i < a'.length →
        pyStartsWith sep (a'.drop i ++ sep ++ t) = false := by
      intro i hi
      simpa using h (i + 1) (Nat.succ_lt_succ hi)
    rw [ih t (c :: acc) htail]
    simp

/-- No occurrence of `"/join#"` starts inside the broker base URL,
whatever follows it. -/
theorem no_join_in_base (t : List Char) :
    ∀ i, i < LINK_SERVER_URL.data.length →
      pyStartsWith "/join#".data (LINK_SERVER_URL.data.drop i ++ "/join#".data ++ t)
        = false := by
  intro i hi
  have hlen : LINK_SERVER_URL.data.length = 23 := by decide
  rw [hlen] at hi
  interval_cases i <;> simp +decide [pyStartsWith, LINK_SERVER_URL]

/-- **C9 counterexample** — a session id containing `':'` breaks the
share-URL round trip: `parse_share_url` returns `None`, not the pair it
was built from. -/
theorem C9_counterexample :
    parse_share_url (construct_share_url "a:b" "k") = none ∧
    parse_share_url (construct_share_url "a:b" "k") ≠ some ("a:b", "k") := by
  have h0 : parse_share_url (construct_share_url "a:b" "k") = none := rfl
  refine ⟨h0, ?_⟩
  intro h
  rw [h0] at h
  cases h

/-- **C9 (amended)** — the credentials round trip holds whenever room name
and server URL contain no `'|'` (the secret may); the share-URL round trip
holds whenever neither session id nor key contains `':'` or the substring
`"/join#"`. -/
theorem C9_link_roundtrip (room_name server_url room_secret : List Char)
    (ephemeral_key : Nat) (session_id key : String)
    (hroom : '|' ∉ room_name) (hserver : '|' ∉ server_url)
    (hs1 : ':' ∉ session_id.data) (hk1 : ':' ∉ key.data)
    (hs2 : hasSub "/join#".data session_id.data = false)
    (hk2 : hasSub "/join#".data key.data = false) :
    decrypt_credentials
        (generate_link_components room_name room_secret server_url ephemeral_key).1
        ephemeral_key = some (room_name, server_url, room_secret) ∧
    parse_share_url (construct_share_url session_id key) =
      some (session_id, key) := by
  constructor
  · simp only [generate_link_components, decrypt_credentials]
    rw [show cfernetDec ephemeral_key
        (cfernetEnc ephemeral_key (room_name ++ '|' :: (server_url ++ '|' :: room_secret)))
        = some (room_name ++ '|' :: (server_url ++ '|' :: room_secret)) by
      simp [cfernetDec, cfernetEnc]]
    simp [breakAtPipe_append room_name _ hroom, breakAtPipe_append server_url _ hserver]
  · have hfrag : hasSub "/join#".data (session_id.data ++ ':' :: key.data) = false :=
      hasSub_append_cons "/join#".data ':' (by decide) (by decide)
        session_id.data key.data hs2 hk2
    have hdata : (construct_share_url session_id key).data =
        LINK_SERVER_URL.data ++ "/join#".data ++ (session_id.data ++ ':' :: key.data) := by
      simp [construct_share_url, String.data_append, List.append_assoc]
    have hinner : pySplit [':'] (session_id.data ++ ':' :: key.data) =
        [session_id.data, key.data] := by
      rw [pySplit, pySplit_single ':' session_id.data key.data hs1 hk1 []]
      simp
    rw [parse_share_url, hdata, pySplit,
      pySplitAux_cross "/join#".data (by decide) LINK_SERVER_URL.data
        (session_id.data ++ ':' :: key.data) [] (no_join_in_base _),
      pySplitAux_noSub "/join#".data _ [] hfrag]
    simp only [List.reverse_nil, List.nil_append]
    rw [hinner]

/-- **C9 witness** — concrete instantiation of the amended round trip
(note the secret itself may contain `'|'`). -/
theorem C9_link_roundtrip_witness :
    decrypt_credentials
        (generate_link_components "room1".data "p|q".data "https://ntfy.sh".data 7).1 7
      = some ("room1".data, "https://ntfy.sh".data, "p|q".data) ∧
    parse_share_url (construct_share_url "abc123" "KEYb64") =
      some ("abc123", "KEYb64") := by
  have h := C9_link_roundtrip "room1".data "https://ntfy.sh".data "p|q".data 7
    "abc123" "KEYb64" (by decide) (by decide) (by decide) (by decide)
    (by decide) (by decide)
  exact h

/-! ## `enchat_lib/session_key.py` -/

/-- `SESSION_KEY_ROTATION_INTERVAL = 300  # 5 minutes` -/
def SESSION_KEY_ROTATION_INTERVAL : Int := 300

/-- The module-level `_active_sessions` map: `{room: (key, creation_timestamp)}`. -/
abbrev Sessions := List (String × (List Nat × Int))

/-- `set_session_key(room, key)`: stores `(key, int(time.time()))` for the room. -/
def set_session_key (now : Int) (sessions : Sessions) (room : String)
    (key : List Nat) : Sessions :=
  setA sessions room (key, now)

/-- `get_session_key(room)`: `_active_sessions.get(room, (None, 0))[0]`. -/
def get_session_key (sessions : Sessions) (room : String) : Option (List Nat) :=
  (lookupA sessions room).map Prod.fst

/-- `should_rotate_key(room)`: true if no key exists, else
`(time.time() - timestamp) > SESSION_KEY_ROTATION_INTERVAL`. -/
def should_rotate_key (now : Int) (sessions : Sessions) (room : String) : Bool :=
  match lookupA sessions room with
  | none => true
  | some (_, ts) => decide (now - ts > SESSION_KEY_ROTATION_INTERVAL)

/-- Session-layer Fernet token for text payloads, carried as a string on the
wire; modelled as the ideal triple (key, tag, message). -/
structure STok where
  k : Nat
  tag : Nat
  msg : String
deriving DecidableEq, Repr

/-- Injective encoding of a string (used for ideal session-layer tags). -/
def encodeStr (s : String) : Nat :=
  encodeBytes (s.data.map Char.toNat)

/-- `encrypt_with_session(data, session_key)`. -/
def encrypt_with_session (data : String) (key : Nat) : STok :=
  ⟨key, Nat.pair key (encodeStr data), data⟩

/-- `decrypt_with_session(token, session_key)`: returns the plaintext, or
the empty string when `Fernet.decrypt` raises (the `except` branch). -/
def decrypt_with_session (tok : STok) (key : Nat) : String :=
  if tok.k = key ∧ tok.tag = Nat.pair key (encodeStr tok.msg) then tok.msg else ""

/-- `encrypt_session_key(session_key, room_key_fernet)`. -/
def encrypt_session_key (sessionKey : List Nat) (roomKey : Nat) : List Nat :=
  fernetEnc roomKey sessionKey

/-- `decrypt_session_key(encrypted_key, room_key_fernet)`: returns the key
bytes, or `None` when `Fernet.decrypt` raises (the `except` branch). -/
def decrypt_session_key (tok : List Nat) (roomKey : Nat) : Option (List Nat) :=
  fernetDec roomKey tok

/-- **C3 counterexample** — the failure marker of `decrypt_with_session`
is the empty string, which is exactly what a successful decryption of the
empty message returns: the marker is not distinguishable from every
successfully decrypted plaintext.  (`⟨1, 0, "x"⟩` is not a valid token
under key `0`: its key field is `1`.) -/
theorem C3_counterexample :
    decrypt_with_session (encrypt_with_session "" 0) 0 = "" ∧
    decrypt_with_session ⟨1, 0, "x"⟩ 0 = "" ∧
    STok.k ⟨1, 0, "x"⟩ ≠ 0 := by
  refine ⟨rfl, ?_, by decide⟩
  rw [decrypt_with_session, if_neg]
  intro h
  exact absurd h.1 (by decide)

/-- **C3 (amended)** — both decryption helpers are total and degrade to an
explicit marker on any token that is not a valid encryption under the key
(`""` for `decrypt_with_session`, `None` for `decrypt_session_key`), and
both satisfy the round trip.  `None` is distinguishable from every
plaintext; `""` coincides with the successful decryption of the empty
message and is distinguishable only from every non-empty plaintext. -/
theorem C3_decrypt_markers (k : Nat) (t : STok) (tb : List Nat) (m : String)
    (mb : List Nat)
    (hinv : ∀ m', t ≠ encrypt_with_session m' k)
    (hinvb : ∀ m', tb ≠ encrypt_session_key m' k) :
    decrypt_with_session t k = "" ∧
    decrypt_session_key tb k = none ∧
    decrypt_with_session (encrypt_with_session m k) k = m ∧
    decrypt_session_key (encrypt_session_key mb k) k = some mb ∧
    (m ≠ "" → decrypt_with_session (encrypt_with_session m k) k ≠ "") := by
  have hrt : decrypt_with_session (encrypt_with_session m k) k = m := by
    simp [decrypt_with_session, encrypt_with_session]
  refine ⟨?_, ?_, hrt, fernetDec_enc k mb, fun hm => by rwa [hrt]⟩
  · rw [decrypt_with_session, if_neg]
    intro hc
    exact hinv t.msg (by
      obtain ⟨tk, ttag, tmsg⟩ := t
      simp only at hc
      rw [encrypt_with_session, hc.1, hc.2])
  · rw [decrypt_session_key]
    match h : fernetDec k tb with
    | none => rfl
    | some m' => exact absurd (fernetDec_valid k tb m' h) (hinvb m')

/-- **C3 witness** — marker behaviour and round trip at concrete inputs:
`⟨4, 0, "zz"⟩` has the wrong key field for key `3`, `[9]` is not even
shaped like a token. -/
theorem C3_decrypt_markers_witness :
    decrypt_with_session ⟨4, 0, "zz"⟩ 3 = "" ∧
    decrypt_session_key [9] 3 = none ∧
    decrypt_with_session (encrypt_with_session "hi" 3) 3 = "hi" ∧
    decrypt_session_key (encrypt_session_key [1, 2] 3) 3 = some [1, 2] ∧
    ("hi" ≠ "" → decrypt_with_session (encrypt_with_session "hi" 3) 3 ≠ "") := by
  exact C3_decrypt_markers 3 ⟨4, 0, "zz"⟩ [9] "hi" [1, 2]
    (fun m' h => by
      have hk : (4 : Nat) = 3 := congrArg STok.k h
      exact absurd hk (by decide))
    (fun m' h => by rw [encrypt_session_key, fernetEnc] at h; cases h)

/-- **C8** — `should_rotate_key` returns true iff no session key is stored
for the room or the stored key's age exceeds the 300-second rotation
interval; `set_session_key` replaces the stored key together with its
creation timestamp. -/
theorem C8_session_rotation (now : Int) (sessions : Sessions) (room : String)
    (key : List Nat) :
    (should_rotate_key now sessions room = true ↔
      lookupA sessions room = none ∨
      ∃ k ts, lookupA sessions room = some (k, ts) ∧
        now - ts > SESSION_KEY_ROTATION_INTERVAL) ∧
    lookupA (set_session_key now sessions room key) room = some (key, now) := by
  constructor
  · unfold should_rotate_key
    match h : lookupA sessions room with
    | none => simp
    | some (k, ts) =>
      simp only [decide_eq_true_eq]
      constructor
      · intro hgt
        exact Or.inr ⟨k, ts, rfl, hgt⟩
      · rintro (hnone | ⟨k', ts', heq, hgt⟩)
        · exact absurd hnone (by simp)
        · obtain ⟨rfl, rfl⟩ : k = k' ∧ ts = ts' := by
            simpa using heq
          exact hgt
  · exact lookupA_setA_self sessions room (key, now)

/-! ## `enchat_lib/file_transfer.py` -/

/-- Wire metadata `{file_id, filename, size, total_chunks, hash}`. -/
structure FileMeta where
  file_id : String
  filename : String
  size : Nat
  total_chunks : Nat
  hash : Digest
deriving DecidableEq, Repr

/-- Wire chunk `{file_id, chunk_num, data}`; `data` is a Fernet token. -/
structure FileChunk where
  file_id : String
  chunk_num : Nat
  data : List Nat
deriving DecidableEq, Repr

/-- One entry of `state.available_files`.  The creation sites write the
dict without the `metadata` / `total_chunks` keys (metadata path) or with
`None` / `-1` (chunk path); both are modelled by the placeholders `none` /
`-1`, which the metadata handler overwrites before they can be read. -/
structure FileInfo where
  metadata : Option FileMeta
  sender : String
  chunks_received : Nat
  total_chunks : Int
  complete : Bool
deriving DecidableEq, Repr

/-- `state.available_files` and `state.file_chunks`. -/
structure FTState where
  available_files : List (String × FileInfo)
  file_chunks : List (String × List (Nat × FileChunk))
deriving DecidableEq, Repr

def emptyFT : FTState := ⟨[], []⟩

/-- Display-buffer entries `(sender, text, is_mine)`; panel markup is
abbreviated to its key text (terminal rendering is outside the core). -/
abbrev BufEntry := String × String × Bool

abbrev Buf := List BufEntry

/-- `_check_file_completion(file_id, buf)`. -/
def _check_file_completion (file_id : String) (st : FTState) (buf : Buf) :
    FTState × Buf :=
  match lookupA st.available_files file_id with
  | none => (st, buf)
  | some info =>
    if info.metadata.isNone || info.complete then (st, buf)
    else if 0 < info.total_chunks ∧ (info.chunks_received : Int) = info.total_chunks then
      ({ st with available_files := (updA st.available_files file_id
            (fun i => { i with complete := true })) },
        buf ++ [("System", "File Ready for Download", false)])
    else (st, buf)

/-- `handle_file_metadata(metadata, sender, buf)`. -/
def handle_file_metadata (metadata : FileMeta) (sender : String)
    (st : FTState) (buf : Buf) : FTState × Buf :=
  let file_id := metadata.file_id
  let st :=
    if (lookupA st.available_files file_id).isNone then
      { available_files := setA st.available_files file_id ⟨none, sender, 0, -1, false⟩,
        file_chunks := setA st.file_chunks file_id [] }
    else st
  let st := { st with available_files := (updA st.available_files file_id
    (fun i => { i with metadata := some metadata,
                       total_chunks := (metadata.total_chunks : Int) })) }
  let buf := buf ++ [("System", "File Transfer Incoming", false)]
  _check_file_completion file_id st buf

/-- `handle_file_chunk(chunk_data, sender, buf)`. -/
def handle_file_chunk (chunk_data : FileChunk) (sender : String)
    (st : FTState) (buf : Buf) : FTState × Buf :=
  let file_id := chunk_data.file_id
  let chunk_num := chunk_data.chunk_num
  let st :=
    if (lookupA st.available_files file_id).isNone then
      { available_files := setA st.available_files file_id ⟨none, sender, 0, -1, false⟩,
        file_chunks := setA st.file_chunks file_id [] }
    else st
  match lookupA st.available_files file_id with
  | none => (st, buf)  -- unreachable: the key was just ensured present
  | some info =>
    if info.complete then (st, buf)
    else
      let m := (lookupA st.file_chunks file_id).getD []
      let st :=
        if (lookupA m chunk_num).isNone then
          let m' := setA m chunk_num chunk_data
          { available_files := updA st.available_files file_id
              (fun i => { i with chunks_received := m'.length }),
            file_chunks := setA st.file_chunks file_id m' }
        else st
      _check_file_completion file_id st buf

/-- The decryption loop of `assemble_file_from_chunks`: look up and
decrypt each chunk in the given key order; `none` when any decryption
raises (or a key is missing, equally caught by the `except`). -/
def decryptChunks (f_cipher : Nat) (chunks_dict : List (Nat × FileChunk)) :
    List Nat → Option (List (List Nat))
  | [] => some []
  | i :: rest =>
    match (lookupA chunks_dict i).bind (fun c => fernetDec f_cipher c.data) with
    | none => none
    | some p => (decryptChunks f_cipher chunks_dict rest).map (fun ps => p :: ps)

/-- `assemble_file_from_chunks(file_id, f_cipher)`: returns the assembled
plaintext bytes (the contents written to the temp file) or the error
string.  The temp-file path handling and its removal on hash mismatch are
I/O; a mismatch is modelled by returning the integrity error without a
result.  `Fernet.decrypt` raising inside the loop, or a `None` metadata
being subscripted, lands in the generic `except` branch. -/
def assemble_file_from_chunks (file_id : String) (f_cipher : Nat)
    (st : FTState) : Except String (List Nat) :=
  match lookupA st.available_files file_id with
  | none => .error "File not available or incomplete"
  | some info =>
    if !info.complete then .error "File not available or incomplete"
    else
      match info.metadata with
      | none => .error "Error assembling file"
      | some metadata =>
        let chunks_dict := (lookupA st.file_chunks file_id).getD []
        if metadata.total_chunks = 0 then
          if Digest.mk [] ≠ metadata.hash then .error "File integrity check failed"
          else .ok []
        else
          let sorted_keys := List.insertionSort (· ≤ ·) (chunks_dict.map Prod.fst)
          match decryptChunks f_cipher chunks_dict sorted_keys with
          | none => .error "Error assembling file"
          | some plains =>
            let content := plains.flatten
            if Digest.mk content ≠ metadata.hash then .error "File integrity check failed"
            else .ok content

/-- **C1** — code bug: for an empty file (`total_chunks == 0`) the
completion check requires `total > 0` and therefore never marks the record
complete even though metadata is known and `chunks_received == total_chunks
== 0`; assembly then refuses with "File not available or incomplete", so
the empty file can never be assembled (the empty-file branch of
`assemble_file_from_chunks` is unreachable). -/
theorem C1_empty_file_never_completes :
    (handle_file_metadata ⟨"f1", "empty.txt", 0, 0, Digest.mk []⟩ "alice"
        emptyFT []).1.available_files =
      [("f1", ⟨some ⟨"f1", "empty.txt", 0, 0, Digest.mk []⟩, "alice", 0, 0, false⟩)] ∧
    assemble_file_from_chunks "f1" 0
        (handle_file_metadata ⟨"f1", "empty.txt", 0, 0, Digest.mk []⟩ "alice"
          emptyFT []).1 =
      .error "File not available or incomplete" := by
  constructor
  · rfl
  · rfl

/-- `_check_file_completion` is idempotent on the state: running it on its
own output changes nothing. -/
theorem check_stable (fid : String) (st : FTState) (buf buf' : Buf) :
    _check_file_completion fid (_check_file_completion fid st buf).1 buf' =
      ((_check_file_completion fid st buf).1, buf') := by
  cases h : lookupA st.available_files fid with
  | none => simp [_check_file_completion, h]
  | some info =>
    by_cases h1 : (info.metadata.isNone || info.complete) = true
    · simp [_check_file_completion, h, h1]
    · by_cases h2 : 0 < info.total_chunks ∧
          (info.chunks_received : Int) = info.total_chunks
      · have hlook : lookupA (updA st.available_files fid
            (fun i => { i with complete := true })) fid
            = some { info with complete := true } := by
          rw [lookupA_updA_self, h]; rfl
        simp [_check_file_completion, h, h1, h2, hlook]
      · simp [_check_file_completion, h, h1, h2]

/-- The completion check never touches `state.file_chunks`. -/
theorem check_fc (fid : String) (st : FTState) (buf : Buf) :
    (_check_file_completion fid st buf).1.file_chunks = st.file_chunks := by
  cases h : lookupA st.available_files fid with
  | none => simp [_check_file_completion, h]
  | some info =>
    by_cases h1 : (info.metadata.isNone || info.complete) = true
    · simp [_check_file_completion, h, h1]
    · by_cases h2 : 0 < info.total_chunks ∧
          (info.chunks_received : Int) = info.total_chunks
      · simp [_check_file_completion, h, h1, h2]
      · simp [_check_file_completion, h, h1, h2]

/-- The completion check either leaves the file's entry alone or only
raises its `complete` flag. -/
theorem check_af_lookup (fid : String) (st : FTState) (buf : Buf) :
    lookupA (_check_file_completion fid st buf).1.available_files fid
      = lookupA st.available_files fid ∨
    ∃ info, lookupA st.available_files fid = some info ∧
      lookupA (_check_file_completion fid st buf).1.available_files fid
        = some { info with complete := true } := by
  cases h : lookupA st.available_files fid with
  | none => left; simp [_check_file_completion, h]
  | some info =>
    by_cases h1 : (info.metadata.isNone || info.complete) = true
    · left; simp [_check_file_completion, h, h1]
    · by_cases h2 : 0 < info.total_chunks ∧
          (info.chunks_received : Int) = info.total_chunks
      · right
        refine ⟨info, rfl, ?_⟩
        simp [_check_file_completion, h, h1, h2, lookupA_updA_self]
      · left; simp [_check_file_completion, h, h1, h2]

/-- A second delivery of a chunk is a no-op on any state in which the file
id is present and, unless the record is complete, the chunk is already
stored and the completion check is stable. -/
theorem handle_chunk_noop (cd : FileChunk) (sender : String) (T : FTState)
    (b2 : Buf) (info : FileInfo)
    (hfid : lookupA T.available_files cd.file_id = some info)
    (hrest : info.complete = false →
      (lookupA ((lookupA T.file_chunks cd.file_id).getD [])
        cd.chunk_num).isNone = false ∧
      _check_file_completion cd.file_id T b2 = (T, b2)) :
    handle_file_chunk cd sender T b2 = (T, b2) := by
  cases hC : info.complete with
  | false =>
    obtain ⟨hmem, hstable⟩ := hrest hC
    simp [handle_file_chunk, hfid, hC, hmem, hstable]
  | true => simp [handle_file_chunk, hfid, hC]

/-- **C5** — delivering the same chunk a second time via
`handle_file_chunk` is a no-op: applying the handler twice with the same
chunk (same `file_id`, `chunk_num`) equals applying it once (same
resulting `chunks_received`, chunk map, and buffer), on every state. -/
theorem C5_duplicate_chunk_idempotent (cd : FileChunk) (sender : String)
    (st : FTState) (buf : Buf) :
    handle_file_chunk cd sender (handle_file_chunk cd sender st buf).1
        (handle_file_chunk cd sender st buf).2
      = handle_file_chunk cd sender st buf := by
  by_cases hA : (lookupA st.available_files cd.file_id).isNone
  · -- first sighting: creation, insertion into the empty map, then check
    have h1 : lookupA (setA st.available_files cd.file_id
        (⟨none, sender, 0, -1, false⟩ : FileInfo)) cd.file_id
        = some ⟨none, sender, 0, -1, false⟩ := lookupA_setA_self _ _ _
    have h2 : lookupA (setA st.file_chunks cd.file_id
        ([] : List (Nat × FileChunk))) cd.file_id = some [] := lookupA_setA_self _ _ _
    have hfirst : handle_file_chunk cd sender st buf =
        _check_file_completion cd.file_id
          ⟨updA (setA st.available_files cd.file_id ⟨none, sender, 0, -1, false⟩)
              cd.file_id (fun i => { i with chunks_received := 1 }),
            setA (setA st.file_chunks cd.file_id []) cd.file_id [(cd.chunk_num, cd)]⟩
          buf := by
      simp [handle_file_chunk, hA, h1, h2, lookupA, setA]
    set S : FTState :=
      ⟨updA (setA st.available_files cd.file_id ⟨none, sender, 0, -1, false⟩)
          cd.file_id (fun i => { i with chunks_received := 1 }),
        setA (setA st.file_chunks cd.file_id []) cd.file_id [(cd.chunk_num, cd)]⟩
      with hS
    rw [hfirst]
    have h3 : lookupA S.available_files cd.file_id
        = some ⟨none, sender, 1, -1, false⟩ := by
      rw [hS, lookupA_updA_self, h1]; rfl
    have hmem : (lookupA ((lookupA
        (_check_file_completion cd.file_id S buf).1.file_chunks
          cd.file_id).getD []) cd.chunk_num).isNone = false := by
      rw [check_fc, hS]
      rw [lookupA_setA_self]
      simp [lookupA]
    rcases check_af_lookup cd.file_id S buf with hlook | ⟨info', hinfo', hlook⟩
    · rw [h3] at hlook
      exact handle_chunk_noop cd sender _ _ _ hlook
        (fun _ => ⟨hmem, check_stable cd.file_id S buf _⟩)
    · rw [h3] at hinfo'
      obtain rfl : (⟨none, sender, 1, -1, false⟩ : FileInfo) = info' := by
        simpa using hinfo'
      exact handle_chunk_noop cd sender _ _ _ hlook
        (fun h => absurd h (by simp))
  · obtain ⟨info, hinfo⟩ : ∃ info,
        lookupA st.available_files cd.file_id = some info := by
      cases h : lookupA st.available_files cd.file_id with
      | none => rw [h] at hA; simp at hA
      | some i => exact ⟨i, rfl⟩
    by_cases hC : info.complete
    · -- already complete: both applications leave the state alone
      have hfirst : handle_file_chunk cd sender st buf = (st, buf) := by
        simp [handle_file_chunk, hA, hinfo, hC]
      rw [hfirst]
      exact handle_chunk_noop cd sender st buf info hinfo
        (fun h => absurd hC (by simp [h]))
    · by_cases hN : (lookupA ((lookupA st.file_chunks cd.file_id).getD [])
          cd.chunk_num).isNone
      · -- chunk is new: insertion, then check
        have hC' : info.complete = false := by simpa using hC
        have hfirst : handle_file_chunk cd sender st buf =
            _check_file_completion cd.file_id
              ⟨updA st.available_files cd.file_id
                  (fun i => { i with chunks_received :=
                    (setA ((lookupA st.file_chunks cd.file_id).getD [])
                      cd.chunk_num cd).length }),
                setA st.file_chunks cd.file_id
                  (setA ((lookupA st.file_chunks cd.file_id).getD [])
                    cd.chunk_num cd)⟩ buf := by
          simp [handle_file_chunk, hA, hinfo, hC', hN]
        set S : FTState :=
          ⟨updA st.available_files cd.file_id
              (fun i => { i with chunks_received :=
                (setA ((lookupA st.file_chunks cd.file_id).getD [])
                  cd.chunk_num cd).length }),
            setA st.file_chunks cd.file_id
              (setA ((lookupA st.file_chunks cd.file_id).getD [])
                cd.chunk_num cd)⟩ with hS
        rw [hfirst]
        have h3 : lookupA S.available_files cd.file_id
            = some { info with chunks_received :=
              (setA ((lookupA st.file_chunks cd.file_id).getD [])
                cd.chunk_num cd).length } := by
          rw [hS, lookupA_updA_self, hinfo]; rfl
        have hmem : (lookupA ((lookupA
            (_check_file_completion cd.file_id S buf).1.file_chunks
              cd.file_id).getD []) cd.chunk_num).isNone = false := by
          rw [check_fc, hS]
          rw [lookupA_setA_self]
          simp [lookupA_setA_self]
        rcases check_af_lookup cd.file_id S buf with hlook | ⟨info', hinfo', hlook⟩
        · rw [h3] at hlook
          exact handle_chunk_noop cd sender _ _ _ hlook
            (fun _ => ⟨hmem, check_stable cd.file_id S buf _⟩)
        · rw [h3] at hinfo'
          obtain rfl : { info with chunks_received :=
              (setA ((lookupA st.file_chunks cd.file_id).getD [])
                cd.chunk_num cd).length } = info' := by simpa using hinfo'
          exact handle_chunk_noop cd sender _ _ _ hlook
            (fun h => absurd h (by simp))
      · -- duplicate chunk: no insertion, only the (idempotent) check runs
        have hC' : info.complete = false := by simpa using hC
        have hN' : (lookupA ((lookupA st.file_chunks cd.file_id).getD [])
            cd.chunk_num).isNone = false := by rwa [Bool.not_eq_true] at hN
        have hfirst : handle_file_chunk cd sender st buf =
            _check_file_completion cd.file_id st buf := by
          simp [handle_file_chunk, hA, hinfo, hC', hN']
        rw [hfirst]
        have hmem : (lookupA ((lookupA
            (_check_file_completion cd.file_id st buf).1.file_chunks
              cd.file_id).getD []) cd.chunk_num).isNone = false := by
          rw [check_fc]
          exact hN'
        rcases check_af_lookup cd.file_id st buf with hlook | ⟨info', hinfo', hlook⟩
        · rw [hinfo] at hlook
          exact handle_chunk_noop cd sender _ _ _ hlook
            (fun _ => ⟨hmem, check_stable cd.file_id st buf _⟩)
        · rw [hinfo] at hinfo'
          obtain rfl : info = info' := by simpa using hinfo'
          exact handle_chunk_noop cd sender _ _ _ hlook
            (fun h => absurd h (by simp))

/-! ## Order independence of the file-transfer receiver (C4) -/

theorem setA_absent {α β : Type} [DecidableEq α] :
    ∀ (m : List (α × β)) (k : α) (v : β), lookupA m k = none →
      setA m k v = m ++ [(k, v)] := by
  intro m
  induction m with
  | nil => intro k v _; rfl
  | cons hd tl ih =>
    intro k v h
    obtain ⟨k', v'⟩ := hd
    by_cases hk : k = k'
    · rw [lookupA, if_pos hk] at h; cases h
    · rw [lookupA, if_neg hk] at h
      rw [setA, if_neg hk, ih k v h, List.cons_append]

theorem lookupA_mapPair_none {β : Type} (g : Nat → β) :
    ∀ (l : List Nat) (i : Nat), i ∉ l →
      lookupA (l.map (fun j => (j, g j))) i = none := by
  intro l
  induction l with
  | nil => intro i _; rfl
  | cons a l' ih =>
    intro i hi
    have hia : ¬i = a := fun h => hi (h ▸ List.mem_cons_self a l')
    rw [List.map_cons, lookupA, if_neg hia]
    exact ih i (fun hm => hi (List.mem_cons_of_mem a hm))

theorem lookupA_mapPair_mem {β : Type} (g : Nat → β) :
    ∀ (l : List Nat) (i : Nat), i ∈ l →
      lookupA (l.map (fun j => (j, g j))) i = some (g i) := by
  intro l
  induction l with
  | nil => intro i hi; cases hi
  | cons a l' ih =>
    intro i hi
    by_cases hia : i = a
    · subst hia; rw [List.map_cons, lookupA, if_pos rfl]
    · rw [List.map_cons, lookupA, if_neg hia]
      exact ih i (by
        cases hi with
        | head => exact absurd rfl hia
        | tail _ hm => exact hm)

/-- One network envelope of a file transfer as seen by the receiver. -/
inductive FtEvent where
  | meta : FtEvent
  | chunk : Nat → FtEvent
deriving DecidableEq, Repr

/-- Dispatch one received envelope to the corresponding handler. -/
def applyFtEvent (metadata : FileMeta) (cd : Nat → FileChunk) (sender : String)
    (sb : FTState × Buf) : FtEvent → FTState × Buf
  | .meta => handle_file_metadata metadata sender sb.1 sb.2
  | .chunk i => handle_file_chunk (cd i) sender sb.1 sb.2

/-- Process a sequence of file-transfer envelopes from the empty state. -/
def processFtEvents (metadata : FileMeta) (cd : Nat → FileChunk)
    (sender : String) (L : List FtEvent) : FTState × Buf :=
  L.foldl (applyFtEvent metadata cd sender) (emptyFT, [])

/-- The chunk indices delivered in `L`, in arrival order. -/
def chunkIdxs (L : List FtEvent) : List Nat :=
  L.filterMap (fun e => match e with | .meta => none | .chunk i => some i)

/-- The file-transfer state after processing the set of events in `L`
(for distinct in-range events this depends only on membership in `L`,
except for the arrival order recorded in the chunk map). -/
def ftStateOf (metadata : FileMeta) (cd : Nat → FileChunk) (sender : String)
    (L : List FtEvent) : FTState :=
  if L = [] then emptyFT
  else
    { available_files := [(metadata.file_id,
        ⟨if FtEvent.meta ∈ L then some metadata else none, sender,
          (chunkIdxs L).length,
          if FtEvent.meta ∈ L then (metadata.total_chunks : Int) else -1,
          decide (FtEvent.meta ∈ L) &&
            ((chunkIdxs L).length == metadata.total_chunks)⟩)],
      file_chunks := [(metadata.file_id,
        (chunkIdxs L).map (fun i => (i, cd i)))] }

theorem mem_chunkIdxs (L : List FtEvent) (i : Nat) :
    i ∈ chunkIdxs L ↔ FtEvent.chunk i ∈ L := by
  rw [chunkIdxs, List.mem_filterMap]
  constructor
  · rintro ⟨e, he, hsome⟩
    cases e with
    | meta => cases hsome
    | chunk j =>
      obtain rfl : j = i := by simpa using hsome
      exact he
  · intro h
    exact ⟨FtEvent.chunk i, h, rfl⟩

theorem chunkIdxs_nodup (L : List FtEvent) (h : L.Nodup) :
    (chunkIdxs L).Nodup := by
  refine List.Nodup.filterMap ?_ h
  intro a a' b hb hb'
  cases a with
  | meta => cases hb
  | chunk i =>
    cases a' with
    | meta => cases hb'
    | chunk j =>
      obtain rfl : i = b := by simpa using hb
      obtain rfl : j = i := by simpa using hb'
      rfl

/-- A duplicate-free list of indices below `n` with `n` elements contains
every index below `n`. -/
theorem full_idx_mem (l : List Nat) (n : Nat) (hnd : l.Nodup)
    (hlt : ∀ j ∈ l, j < n) (hlen : l.length = n) : ∀ i < n, i ∈ l := by
  intro i hi
  have hsub : l.toFinset ⊆ Finset.range n := by
    intro x hx
    rw [Finset.mem_range]
    exact hlt x (List.mem_toFinset.mp hx)
  have hcard : l.toFinset.card = n := by
    rw [List.toFinset_card_of_nodup hnd, hlen]
  have heq : l.toFinset = Finset.range n := by
    apply Finset.eq_of_subset_of_card_le hsub
    rw [hcard, Finset.card_range]
  have : i ∈ l.toFinset := by
    rw [heq, Finset.mem_range]; exact hi
  exact List.mem_toFinset.mp this

theorem chunkIdxs_append_meta (L : List FtEvent) :
    chunkIdxs (L ++ [FtEvent.meta]) = chunkIdxs L := by
  simp [chunkIdxs]

theorem chunkIdxs_append_chunk (L : List FtEvent) (i : Nat) :
    chunkIdxs (L ++ [FtEvent.chunk i]) = chunkIdxs L ++ [i] := by
  simp [chunkIdxs]

theorem ftStep_meta (metadata : FileMeta) (cd : Nat → FileChunk)
    (sender : String) (hN : 1 ≤ metadata.total_chunks)
    (L : List FtEvent) (hfresh : FtEvent.meta ∉ L) (b : Buf) :
    (handle_file_metadata metadata sender (ftStateOf metadata cd sender L) b).1
      = ftStateOf metadata cd sender (L ++ [FtEvent.meta]) := by
  by_cases hL : L = []
  · subst hL
    have hbeq : ((0 : Nat) == metadata.total_chunks) = false := by
      rw [beq_eq_false_iff_ne]
      omega
    simp [ftStateOf, handle_file_metadata, _check_file_completion, emptyFT,
      lookupA, setA, updA, chunkIdxs, hbeq]
    rw [if_neg (by rintro ⟨_, h2⟩; omega)]
  · have hmem : (FtEvent.meta ∈ L) = False := by
      simp [hfresh]
    by_cases hlen : (chunkIdxs L).length = metadata.total_chunks
    · have h0 : (0 : Int) < (metadata.total_chunks : Int) := by omega
      simp [ftStateOf, handle_file_metadata, _check_file_completion,
        lookupA, updA, hL, hmem, hlen, h0, chunkIdxs_append_meta]
    · have hbeq : ((chunkIdxs L).length == metadata.total_chunks) = false := by
        rw [beq_eq_false_iff_ne]
        exact hlen
      simp [ftStateOf, handle_file_metadata, _check_file_completion,
        lookupA, updA, hL, hmem, hlen, hbeq, chunkIdxs_append_meta]

theorem ftStep_chunk (metadata : FileMeta) (cd : Nat → FileChunk)
    (sender : String) (hN : 1 ≤ metadata.total_chunks)
    (hcd_id : ∀ j, (cd j).file_id = metadata.file_id)
    (hcd_num : ∀ j, (cd j).chunk_num = j)
    (L : List FtEvent) (i : Nat) (hi : i < metadata.total_chunks)
    (hfreshi : i ∉ chunkIdxs L)
    (hidx : ∀ j ∈ chunkIdxs L, j < metadata.total_chunks)
    (hnodup : (chunkIdxs L).Nodup) (b : Buf) :
    (handle_file_chunk (cd i) sender (ftStateOf metadata cd sender L) b).1
      = ftStateOf metadata cd sender (L ++ [FtEvent.chunk i]) := by
  have hfid := hcd_id i
  have hnum := hcd_num i
  by_cases hL : L = []
  · subst hL
    simp [ftStateOf, handle_file_chunk, _check_file_completion, emptyFT,
      lookupA, setA, updA, chunkIdxs, hfid, hnum]
  · have hlookm : lookupA ((chunkIdxs L).map (fun j => (j, cd j))) i = none :=
      lookupA_mapPair_none cd (chunkIdxs L) i hfreshi
    have hsetm : setA ((chunkIdxs L).map (fun j => (j, cd j))) i (cd i)
        = (chunkIdxs L).map (fun j => (j, cd j)) ++ [(i, cd i)] :=
      setA_absent _ _ _ hlookm
    by_cases hm : FtEvent.meta ∈ L
    · have hlenne : (chunkIdxs L).length ≠ metadata.total_chunks := by
        intro he
        exact hfreshi (full_idx_mem (chunkIdxs L) metadata.total_chunks
          hnodup hidx he i hi)
      by_cases hlen : (chunkIdxs L).length + 1 = metadata.total_chunks
      · have h0 : (0 : Int) < (metadata.total_chunks : Int) := by omega
        have hlenInt : ((chunkIdxs L).length : Int) + 1
            = (metadata.total_chunks : Int) := by exact_mod_cast hlen
        simp [ftStateOf, handle_file_chunk, _check_file_completion,
          lookupA, setA, updA, hL, hm, hlenne, hfid, hnum, hlookm, hsetm,
          chunkIdxs_append_chunk, hlen, hlenInt, h0]
      · have hlenIntNe : ¬(((chunkIdxs L).length : Int) + 1
            = (metadata.total_chunks : Int)) := by
          intro h
          exact hlen (by exact_mod_cast h)
        have hbeq : ((chunkIdxs L).length + 1 == metadata.total_chunks)
            = false := by
          rw [beq_eq_false_iff_ne]
          exact hlen
        simp [ftStateOf, handle_file_chunk, _check_file_completion,
          lookupA, setA, updA, hL, hm, hlenne, hfid, hnum, hlookm, hsetm,
          chunkIdxs_append_chunk, hlenIntNe, hbeq]
    · simp [ftStateOf, handle_file_chunk, _check_file_completion,
        lookupA, setA, updA, hL, hm, hfid, hnum, hlookm, hsetm,
        chunkIdxs_append_chunk]

theorem ftInvariant (metadata : FileMeta) (cd : Nat → FileChunk)
    (sender : String) (hN : 1 ≤ metadata.total_chunks)
    (hcd_id : ∀ j, (cd j).file_id = metadata.file_id)
    (hcd_num : ∀ j, (cd j).chunk_num = j) :
    ∀ L : List FtEvent, L.Nodup →
      (∀ j, FtEvent.chunk j ∈ L → j < metadata.total_chunks) →
      (processFtEvents metadata cd sender L).1 = ftStateOf metadata cd sender L := by
  intro L
  induction L using List.reverseRecOn with
  | nil => intro _ _; rfl
  | append_singleton l e ih =>
    intro hnd hidx
    obtain ⟨hl_nd, _, hdisj⟩ := List.nodup_append.mp hnd
    have he_fresh : e ∉ l := fun hel => hdisj hel (List.mem_singleton_self e)
    have hidx' : ∀ j, FtEvent.chunk j ∈ l → j < metadata.total_chunks :=
      fun j hj => hidx j (List.mem_append_left _ hj)
    have hfold : processFtEvents metadata cd sender (l ++ [e]) =
        applyFtEvent metadata cd sender
          (processFtEvents metadata cd sender l) e := by
      rw [processFtEvents, List.foldl_append, List.foldl_cons, List.foldl_nil]
      rfl
    rw [hfold]
    have hprev := ih hl_nd hidx'
    cases e with
    | meta =>
      show (handle_file_metadata metadata sender
          (processFtEvents metadata cd sender l).1
          (processFtEvents metadata cd sender l).2).1 = _
      rw [hprev]
      exact ftStep_meta metadata cd sender hN l he_fresh _
    | chunk i =>
      show (handle_file_chunk (cd i) sender
          (processFtEvents metadata cd sender l).1
          (processFtEvents metadata cd sender l).2).1 = _
      rw [hprev]
      refine ftStep_chunk metadata cd sender hN hcd_id hcd_num l i ?_ ?_ ?_ ?_ _
      · exact hidx i (List.mem_append_right _ (List.mem_singleton_self _))
      · intro hmem
        exact he_fresh ((mem_chunkIdxs l i).mp hmem)
      · intro j hj
        exact hidx' j ((mem_chunkIdxs l j).mp hj)
      · exact chunkIdxs_nodup l hl_nd

theorem decryptChunks_some (k : Nat) (cdict : List (Nat × FileChunk))
    (g : Nat → List Nat) : ∀ l : List Nat,
    (∀ i ∈ l, (lookupA cdict i).bind (fun c => fernetDec k c.data) = some (g i)) →
    decryptChunks k cdict l = some (l.map g) := by
  intro l
  induction l with
  | nil => intro _; rfl
  | cons a l' ih =>
    intro h
    rw [decryptChunks, h a (List.mem_cons_self a l'),
      ih (fun i hi => h i (List.mem_cons_of_mem a hi))]
    rfl

/-- **C4** — order independence: for a file split into `N ≥ 1` chunks,
delivering its metadata and its `N` chunks to the receiver handlers in any
permutation of arrival order yields `complete = true` once everything has
been seen, and assembly produces the same bytes — the concatenation of the
chunk plaintexts in ascending chunk order — regardless of arrival order. -/
theorem C4_order_independence (N : Nat) (hN : 1 ≤ N) (fid fname sender : String)
    (size key : Nat) (plain : Nat → List Nat) (L : List FtEvent)
    (hperm : L.Perm (FtEvent.meta :: (List.range N).map FtEvent.chunk)) :
    (∃ info, lookupA (processFtEvents
        ⟨fid, fname, size, N, Digest.mk ((List.range N).map plain).flatten⟩
        (fun i => ⟨fid, i, fernetEnc key (plain i)⟩) sender L).1.available_files fid
        = some info ∧ info.complete = true) ∧
    assemble_file_from_chunks fid key
        (processFtEvents
          ⟨fid, fname, size, N, Digest.mk ((List.range N).map plain).flatten⟩
          (fun i => ⟨fid, i, fernetEnc key (plain i)⟩) sender L).1
      = .ok ((List.range N).map plain).flatten := by
  have hFnd : (FtEvent.meta :: (List.range N).map FtEvent.chunk).Nodup := by
    rw [List.nodup_cons]
    constructor
    · intro hmem
      obtain ⟨j, _, hj⟩ := List.mem_map.mp hmem
      cases hj
    · exact (List.nodup_range N).map (fun a b h => by cases h; rfl)
  have hLnd : L.Nodup := hperm.nodup_iff.mpr hFnd
  have hidx : ∀ j, FtEvent.chunk j ∈ L → j < N := by
    intro j hj
    rcases List.mem_cons.mp (hperm.mem_iff.mp hj) with heq | hmem
    · cases heq
    · obtain ⟨j', hj', hje⟩ := List.mem_map.mp hmem
      obtain rfl : j' = j := by cases hje; rfl
      exact List.mem_range.mp hj'
  have hmetaL : FtEvent.meta ∈ L :=
    hperm.mem_iff.mpr (List.mem_cons_self _ _)
  have hLne : L ≠ [] := by
    intro h
    rw [h] at hmetaL
    cases hmetaL
  have hidxperm : (chunkIdxs L).Perm (List.range N) := by
    have h1 : (chunkIdxs L).Perm
        (chunkIdxs (FtEvent.meta :: (List.range N).map FtEvent.chunk)) :=
      hperm.filterMap _
    have h2 : chunkIdxs (FtEvent.meta :: (List.range N).map FtEvent.chunk)
        = List.range N := by
      rw [chunkIdxs, List.filterMap_cons]
      simp only [List.filterMap_map]
      have heq : ((fun e => match e with
          | FtEvent.meta => none
          | FtEvent.chunk i => some i) ∘ FtEvent.chunk)
          = fun i : Nat => some i := by
        funext j
        rfl
      rw [heq]
      exact List.filterMap_some (List.range N)
    rwa [h2] at h1
  have hlenL : (chunkIdxs L).length = N := by
    rw [hidxperm.length_eq, List.length_range]
  have hinv := ftInvariant
    ⟨fid, fname, size, N, Digest.mk ((List.range N).map plain).flatten⟩
    (fun i => ⟨fid, i, fernetEnc key (plain i)⟩) sender hN
    (fun j => rfl) (fun j => rfl) L hLnd hidx
  rw [hinv]
  have hkeys2 : (chunkIdxs L).map (Prod.fst ∘ (fun i =>
      (i, (⟨fid, i, fernetEnc key (plain i)⟩ : FileChunk)))) = chunkIdxs L := by
    rw [show (Prod.fst ∘ (fun i : Nat =>
        (i, (⟨fid, i, fernetEnc key (plain i)⟩ : FileChunk)))) = id from rfl]
    exact List.map_id _
  have hsortList : List.insertionSort (· ≤ ·) (chunkIdxs L) = List.range N :=
    List.eq_of_perm_of_sorted ((List.perm_insertionSort _ _).trans hidxperm)
      (List.sorted_insertionSort _ _) (List.sorted_le_range N)
  have hdec : decryptChunks key
      ((chunkIdxs L).map (fun i => (i, (⟨fid, i, fernetEnc key (plain i)⟩ : FileChunk))))
      (List.range N) = some ((List.range N).map plain) := by
    refine decryptChunks_some key _ plain (List.range N) ?_
    intro i hi
    have hmemi : i ∈ chunkIdxs L := hidxperm.mem_iff.mpr hi
    rw [lookupA_mapPair_mem _ (chunkIdxs L) i hmemi]
    simpa using fernetDec_enc key (plain i)
  constructor
  · refine ⟨⟨if FtEvent.meta ∈ L then some ⟨fid, fname, size, N,
        Digest.mk ((List.range N).map plain).flatten⟩ else none, sender,
        (chunkIdxs L).length,
        if FtEvent.meta ∈ L then (N : Int) else -1,
        decide (FtEvent.meta ∈ L) && ((chunkIdxs L).length == N)⟩, ?_, ?_⟩
    · rw [ftStateOf, if_neg hLne]
      simp [lookupA]
    · simp [hmetaL, hlenL]
  · have hN0 : ¬(N = 0) := by omega
    rw [ftStateOf, if_neg hLne, assemble_file_from_chunks]
    simp only [lookupA, hmetaL, hlenL, hN0]
    simp [lookupA, hmetaL, hlenL, hN0]
    rw [hkeys2, hsortList, hdec]
    simp

/-- **C4 witness** — a two-chunk file delivered fully reversed (chunk 1,
chunk 0, then metadata) completes and assembles to the in-order bytes. -/
theorem C4_order_independence_witness :
    (∃ info, lookupA (processFtEvents
        ⟨"f", "a.bin", 2, 2, Digest.mk [0, 1]⟩
        (fun i => ⟨"f", i, fernetEnc 5 [i]⟩) "alice"
        [FtEvent.chunk 1, FtEvent.chunk 0, FtEvent.meta]).1.available_files "f"
        = some info ∧ info.complete = true) ∧
    assemble_file_from_chunks "f" 5
        (processFtEvents ⟨"f", "a.bin", 2, 2, Digest.mk [0, 1]⟩
          (fun i => ⟨"f", i, fernetEnc 5 [i]⟩) "alice"
          [FtEvent.chunk 1, FtEvent.chunk 0, FtEvent.meta]).1
      = .ok [0, 1] := by
  exact C4_order_independence 2 (by decide) "f" "a.bin" "alice" 2 5
    (fun i => [i]) [FtEvent.chunk 1, FtEvent.chunk 0, FtEvent.meta] (by decide)

/-- Changing any single byte of an ideal Fernet token makes decryption
fail: a changed key byte fails the key check, a changed tag byte fails the
tag check, and a changed message byte changes the message, which the
(injective) tag detects. -/
theorem fernetDec_corrupt (key : Nat) (msg : List Nat) (pos b : Nat)
    (hpos : pos < (fernetEnc key msg).length)
    (hb : b ≠ (fernetEnc key msg).getD pos 0) :
    fernetDec key ((fernetEnc key msg).set pos b) = none := by
  match pos with
  | 0 =>
    have hbk : ¬(b = key) := by simpa [fernetEnc] using hb
    simp [fernetEnc, fernetDec, hbk]
  | 1 =>
    have hbt : ¬(b = Nat.pair key (encodeBytes msg)) := by
      simpa [fernetEnc] using hb
    simp [fernetEnc, fernetDec, hbt]
  | n + 2 =>
    have hn : n < msg.length := by
      simpa [fernetEnc] using hpos
    have hbm : ¬(b = msg[n]) := by
      rw [fernetEnc] at hb
      simpa [List.getD, List.getElem?_eq_getElem hn] using hb
    have hset : msg.set n b ≠ msg := by
      intro he
      apply hbm
      have h1 : (msg.set n b)[n]? = some b :=
        List.getElem?_set_eq_of_lt b hn
      rw [he, List.getElem?_eq_getElem hn] at h1
      exact (Option.some_inj.mp h1).symm
    rw [fernetEnc, List.set, List.set, fernetDec]
    rw [if_neg]
    rintro ⟨_, htag⟩
    exact hset (encodeBytes_inj (Nat.pair_eq_pair.mp htag.symm).2)

theorem decryptChunks_none (k : Nat) (cdict : List (Nat × FileChunk)) :
    ∀ (l : List Nat) (j : Nat), j ∈ l →
    (lookupA cdict j).bind (fun c => fernetDec k c.data) = none →
    decryptChunks k cdict l = none := by
  intro l
  induction l with
  | nil => intro j hj; cases hj
  | cons a l' ih =>
    intro j hj hnone
    by_cases haj : a = j
    · subst haj
      rw [decryptChunks, hnone]
    · rw [decryptChunks]
      have hj' : j ∈ l' := by
        cases hj with
        | head => exact absurd rfl haj
        | tail _ hm => exact hm
      cases hlook : (lookupA cdict a).bind (fun c => fernetDec k c.data) with
      | none => rfl
      | some p => rw [ih j hj' hnone]; rfl

/-- **C6** — integrity rejection: corrupting one byte of one chunk's
ciphertext makes assembly fail with an error (the decryption raises and is
caught), never returning file contents; and when every chunk decrypts but
the recomputed digest differs from the metadata's, assembly discards the
file and reports the integrity error. -/
theorem C6_integrity_rejection (N : Nat) (hN : 1 ≤ N) (fid fname sender : String)
    (size key : Nat) (plain : Nat → List Nat) (h : Digest)
    (j pos b : Nat) (hj : j < N)
    (hpos : pos < (fernetEnc key (plain j)).length)
    (hb : b ≠ (fernetEnc key (plain j)).getD pos 0) :
    assemble_file_from_chunks fid key
      ⟨[(fid, ⟨some ⟨fid, fname, size, N, h⟩, sender, N, (N : Int), true⟩)],
        [(fid, (List.range N).map (fun i => (i,
          (⟨fid, i, if i = j then (fernetEnc key (plain i)).set pos b
                    else fernetEnc key (plain i)⟩ : FileChunk))))]⟩
      = .error "Error assembling file" ∧
    (h ≠ Digest.mk ((List.range N).map plain).flatten →
      assemble_file_from_chunks fid key
        ⟨[(fid, ⟨some ⟨fid, fname, size, N, h⟩, sender, N, (N : Int), true⟩)],
          [(fid, (List.range N).map (fun i => (i,
            (⟨fid, i, fernetEnc key (plain i)⟩ : FileChunk))))]⟩
        = .error "File integrity check failed") := by
  have hN0 : ¬(N = 0) := by omega
  constructor
  · have hdecnone : decryptChunks key
        ((List.range N).map (fun i => (i,
          (⟨fid, i, if i = j then (fernetEnc key (plain i)).set pos b
                    else fernetEnc key (plain i)⟩ : FileChunk))))
        (List.range N) = none := by
      refine decryptChunks_none key _ (List.range N) j (List.mem_range.mpr hj) ?_
      rw [lookupA_mapPair_mem _ (List.range N) j (List.mem_range.mpr hj)]
      simp only [Option.some_bind, if_pos rfl]
      exact fernetDec_corrupt key (plain j) pos b hpos hb
    have hsortR : List.insertionSort (· ≤ ·) (List.range N) = List.range N :=
      List.eq_of_perm_of_sorted (List.perm_insertionSort _ _)
        (List.sorted_insertionSort _ _) (List.sorted_le_range N)
    have hkeys : (List.range N).map (Prod.fst ∘ (fun i => (i,
        (⟨fid, i, if i = j then (fernetEnc key (plain i)).set pos b
                  else fernetEnc key (plain i)⟩ : FileChunk)))) = List.range N := by
      rw [show (Prod.fst ∘ (fun i : Nat => (i,
          (⟨fid, i, if i = j then (fernetEnc key (plain i)).set pos b
                    else fernetEnc key (plain i)⟩ : FileChunk)))) = id from rfl]
      exact List.map_id _
    rw [assemble_file_from_chunks]
    simp only [lookupA, hN0]
    simp [lookupA, hN0]
    rw [hkeys, hsortR, hdecnone]
  · intro hne
    have hdec : decryptChunks key
        ((List.range N).map (fun i => (i,
          (⟨fid, i, fernetEnc key (plain i)⟩ : FileChunk))))
        (List.range N) = some ((List.range N).map plain) := by
      refine decryptChunks_some key _ plain (List.range N) ?_
      intro i hi
      rw [lookupA_mapPair_mem _ (List.range N) i hi]
      simpa using fernetDec_enc key (plain i)
    have hsortR : List.insertionSort (· ≤ ·) (List.range N) = List.range N :=
      List.eq_of_perm_of_sorted (List.perm_insertionSort _ _)
        (List.sorted_insertionSort _ _) (List.sorted_le_range N)
    have hkeys : (List.range N).map (Prod.fst ∘ (fun i => (i,
        (⟨fid, i, fernetEnc key (plain i)⟩ : FileChunk)))) = List.range N := by
      rw [show (Prod.fst ∘ (fun i : Nat => (i,
          (⟨fid, i, fernetEnc key (plain i)⟩ : FileChunk)))) = id from rfl]
      exact List.map_id _
    rw [assemble_file_from_chunks]
    simp only [lookupA, hN0]
    simp [lookupA, hN0]
    rw [hkeys, hsortR, hdec]
    simp [Ne.symm hne]

/-- **C6 witness** — flipping the message byte of the single chunk's token
(position 2, value 7 changed to 8) makes assembly fail, and a wrong
metadata digest triggers the integrity error. -/
theorem C6_integrity_rejection_witness :
    assemble_file_from_chunks "f" 3
      ⟨[("f", ⟨some ⟨"f", "a.bin", 1, 1, Digest.mk [9]⟩, "alice", 1, (1 : Int), true⟩)],
        [("f", (List.range 1).map (fun i => (i,
          (⟨"f", i, if i = 0 then (fernetEnc 3 [7]).set 2 8
                    else fernetEnc 3 [7]⟩ : FileChunk))))]⟩
      = .error "Error assembling file" ∧
    (Digest.mk [9] ≠ Digest.mk ((List.range 1).map (fun _ => [7])).flatten →
      assemble_file_from_chunks "f" 3
        ⟨[("f", ⟨some ⟨"f", "a.bin", 1, 1, Digest.mk [9]⟩, "alice", 1, (1 : Int), true⟩)],
          [("f", (List.range 1).map (fun i => (i,
            (⟨"f", i, fernetEnc 3 [7]⟩ : FileChunk))))]⟩
        = .error "File integrity check failed") := by
  exact C6_integrity_rejection 1 (by decide) "f" "a.bin" "alice" 1 3
    (fun _ => [7]) (Digest.mk [9]) 0 2 8 (by decide) (by decide) (by decide)

/-! ## `sanitize_filename` (`enchat_lib/file_transfer.py`) -/

/-- `os.path.basename` (POSIX): everything after the last `'/'`. -/
def pyBasename (s : List Char) : List Char :=
  ((s.reverse).takeWhile (fun c => ¬(c = '/'))).reverse

/-- The character class of `re.sub(r'[<>:"|?*\x00-\x1f]', '_', ...)`. -/
def badChar (c : Char) : Bool :=
  c = '<' || c = '>' || c = ':' || c = '"' || c = '|' || c = '?' || c = '*' ||
    c.toNat ≤ 0x1f

def subBad (s : List Char) : List Char :=
  s.map (fun c => if badChar c then '_' else c)

/-- Split before the last `'.'`; `none` when there is no `'.'`. -/
def splitAtLastDot : List Char → Option (List Char × List Char)
  | [] => none
  | c :: rest =>
    match splitAtLastDot rest with
    | some p => some (c :: p.1, p.2)
    | none => if c = '.' then some ([], c :: rest) else none

/-- `os.path.splitext` on a slash-free name: split at the last dot unless
everything before it is dots (leading-dot names keep no extension). -/
def pySplitExt (s : List Char) : List Char × List Char :=
  match splitAtLastDot s with
  | none => (s, [])
  | some (n, e) => if n.all (fun c => c = '.') then (s, []) else (n, e)

/-- Python `s[:k]` with a possibly negative bound. -/
def pySliceTo (s : List Char) (k : Int) : List Char :=
  if k < 0 then s.take (s.length - (-k).toNat) else s.take k.toNat

/-- `sanitize_filename(filename, fallback_id)`. -/
def sanitize_filename (filename : List Char) (fallback_id : List Char) :
    List Char :=
  if filename = [] then "file_".data ++ fallback_id
  else
    let safe_name := pyBasename filename
    if safe_name = [] || safe_name = ".".data || safe_name = "..".data ||
        pyStartsWith ['.'] safe_name then "file_".data ++ fallback_id
    else
      let safe_name := subBad safe_name
      let safe_name :=
        if 255 < safe_name.length then
          let ne := pySplitExt safe_name
          pySliceTo ne.1 (255 - (ne.2.length : Int)) ++ ne.2
        else safe_name
      if safe_name = [] then "file_".data ++ fallback_id else safe_name

set_option maxRecDepth 4000 in
/-- **C10** — code bug: for a filename whose extension alone exceeds 255
characters (here `"a." ++ 300 × 'x'`), the truncation `name[:255-len(ext)]`
slices with a negative bound, so the result is the bare extension: 301
characters long and dot-initial, violating both the 255-character bound and
the no-leading-dot guarantee the function otherwise enforces. -/
theorem C10_sanitize_bug :
    sanitize_filename ('a' :: '.' :: List.replicate 300 'x') "f1".data
      = '.' :: List.replicate 300 'x' ∧
    ('.' :: List.replicate 300 'x').length = 301 ∧
    pyStartsWith ['.'] ('.' :: List.replicate 300 'x') = true ∧
    255 < ('.' :: List.replicate 300 'x').length := by
  refine ⟨by decide, by decide, by decide, by decide⟩

/-! ## `enchat_lib/commands.py` -/

/-- Python `s.strip()`. -/
def pyStrip (s : List Char) : List Char :=
  ((s.dropWhile Char.isWhitespace).reverse.dropWhile Char.isWhitespace).reverse

/-- Python `s.strip('"')`. -/
def pyStripQuotes (s : List Char) : List Char :=
  ((s.dropWhile (fun c => c = '"')).reverse.dropWhile (fun c => c = '"')).reverse

/-- Python `s.lower()`. -/
def pyLower (s : List Char) : List Char :=
  s.map Char.toLower

/-- Python `s.partition(c)` without the separator component:
`(before, after)`, with `after = []` when `c` does not occur. -/
def pyPartition (c : Char) : List Char → List Char × List Char
  | [] => ([], [])
  | d :: rest =>
    if d = c then ([], rest)
    else
      let p := pyPartition c rest
      (d :: p.1, p.2)

/-- Python `int(s)` (with surrounding whitespace stripped); `none` models
the raised `ValueError`. -/
def pyToInt (s : List Char) : Option Int :=
  String.toInt? ⟨pyStrip s⟩

/-- First whitespace-separated token of the argument string (models the
`shlex.split(args)[0]` / `args.strip().split()[0]` extraction). -/
def firstToken (s : List Char) : List Char :=
  (pyStrip s).takeWhile (fun c => ¬c.isWhitespace)

/-- Python `s.split()` (whitespace words). -/
def splitWsAux : List Char → List Char → List (List Char)
  | [], acc => if acc = [] then [] else [acc.reverse]
  | c :: rest, acc =>
    if c.isWhitespace then
      if acc = [] then splitWsAux rest []
      else acc.reverse :: splitWsAux rest []
    else splitWsAux rest (c :: acc)

def splitWs (s : List Char) : List (List Char) :=
  splitWsAux s []

def pyEndsWith (s : List Char) (c : Char) : Bool :=
  match s.getLast? with
  | some d => d = c
  | none => false

/-- `_parse_time_to_seconds(time_str)` (`link_sharing.py`): `'10m'`,
`'2h'`, `'1d'` to seconds, `None` for any other suffix.  `.error ()`
models `int()` raising `ValueError` (caught by the caller's `try`). -/
def _parse_time_to_seconds (time_str : List Char) : Except Unit (Option Int) :=
  let t := pyLower time_str
  if pyEndsWith t 'm' then
    match pyToInt t.dropLast with
    | none => .error ()
    | some n => .ok (some (n * 60))
  else if pyEndsWith t 'h' then
    match pyToInt t.dropLast with
    | none => .error ()
    | some n => .ok (some (n * 3600))
  else if pyEndsWith t 'd' then
    match pyToInt t.dropLast with
    | none => .error ()
    | some n => .ok (some (n * 86400))
  else .ok none

/-- The `--uses` / `--ttl` scanning loop of `/share-room`.
`.error true`: `int()` raised (the `except ValueError` message);
`.error false`: `_parse_time_to_seconds` returned `None` (bad format). -/
def shareLoop : List (List Char) → Option Int → Option Int →
    Except Bool (Option Int × Option Int)
  | [], uses, ttl => .ok (uses, ttl)
  | p :: rest, uses, ttl =>
    if p = "--uses".data ∧ rest ≠ [] then
      match pyToInt (rest.headD []) with
      | none => .error true
      | some n => shareLoop rest (some n) ttl
    else if p = "--ttl".data ∧ rest ≠ [] then
      match _parse_time_to_seconds (rest.headD []) with
      | .error _ => .error true
      | .ok none => .error false
      | .ok (some n) => shareLoop rest uses (some n)
    else shareLoop rest uses ttl

/-- `state.lottery_state` entry: `{starter, participants}`. -/
structure Lottery where
  starter : String
  participants : List String
deriving DecidableEq, Repr

/-- `state.poll_state` entry: `{starter, question, options, votes}`
(votes keyed by the stringified option index). -/
structure Poll where
  starter : String
  question : String
  options : List String
  votes : List (String × List String)
deriving DecidableEq, Repr

/-- The system-message vocabulary carried in outbound SYS envelopes
(the f-string / `json.dumps` wire serialization is abstracted into tagged
constructors). -/
inductive SysMsg where
  | left
  | ROOM_CLEANUP
  | LOTTERY_START
  | LOTTERY_ENTER
  | LOTTERY_WINNER (winner : String)
  | LOTTERY_CANCEL
  | POLL_START (question : String) (options : List String)
  | POLL_VOTE (idx : Nat)
  | POLL_CLOSE
  | FILE_DOWNLOAD (file_id : String)
deriving DecidableEq, Repr

/-- One `outbox_queue` item. -/
inductive OutItem where
  | sys (room nick : String) (msg : SysMsg) (server : String) (f : Nat)
  | fileTransfer (room nick : String) (metadata : FileMeta)
      (chunks : List FileChunk) (server : String) (f : Nat)
deriving DecidableEq, Repr

/-- Modelled from the spec: `network.enqueue_sys` (module `network.py` is
not under `src/`); per the spec the command layer enqueues an intent
envelope on the outbound queue. -/
def enqueue_sys (room nick : String) (msg : SysMsg) (server : String)
    (f : Nat) (outbox : List OutItem) : List OutItem :=
  outbox ++ [.sys room nick msg server f]

/-- `enqueue_file_transfer(room, nick, metadata, chunks, server, f)`
(`file_transfer.py`): one atomic outbox item for the whole bundle. -/
def enqueue_file_transfer (room nick : String) (metadata : FileMeta)
    (chunks : List FileChunk) (server : String) (f : Nat)
    (outbox : List OutItem) : List OutItem :=
  outbox ++ [.fileTransfer room nick metadata chunks server f]

/-- Modelled from the spec: `utils.trim` (module `utils.py` is not under
`src/`); it bounds the display buffer, keeping the most recent entries. -/
def bufTrim (buf : Buf) : Buf :=
  buf.drop (buf.length - 500)

/-- The shared state read and written by `handle_command`
(`state.py` module globals plus the session-key store). -/
structure AppState where
  room_participants : List (String × Int)
  notifications_enabled : Bool
  ft : FTState
  outbox : List OutItem
  lottery_state : List (String × Lottery)
  poll_state : List (String × Poll)
  last_generated_link : String
  buf : Buf
  sessions : Sessions
deriving Repr

/-- The environment a command execution observes: clock, randomness,
filesystem and network responses, clipboard (all I/O oracles). -/
structure CmdEnv where
  now : Int
  draw_index : Nat
  session_id : Option String
  server_online : Option Nat
  file_exists : Bool
  split_result : Except String (FileMeta × List FileChunk)
  save_ok : Bool
  copy_ok : Bool
  ephemeral_key : Nat
deriving Repr

/-- `/clear`. -/
def cmd_clear (st : AppState) : AppState :=
  { st with buf := [("System", "Message buffer cleared.", false)] }

/-- `/clean-chat`: warns unless sole participant or confirmed, else
enqueues `ROOM_CLEANUP` and resets the local buffer. -/
def cmd_clean_chat (args : List Char) (room nick server : String) (f : Nat)
    (is_public : Bool) (st : AppState) : AppState :=
  if is_public then
    { st with buf := st.buf ++ [("System", "Cannot clean public rooms.", false)] }
  else if 1 < st.room_participants.length ∧ pyStrip args ≠ "confirm".data then
    { st with buf := st.buf ++
        [("System", "WARNING: This will signal all participants to clean their local chat history.", false),
         ("System", "Are you sure? This action cannot be undone.", false),
         ("System", "Type '/clean-chat confirm' to proceed.", false)] }
  else
    { st with outbox := enqueue_sys room nick .ROOM_CLEANUP server f st.outbox,
              buf := [("System", "Chat cleaned", false)] }

/-- `/who`: refreshes the local nick's own roster entry, then lists the
sorted participants. -/
def cmd_who (now : Int) (nick : String) (st : AppState) : AppState :=
  let parts := setA st.room_participants nick now
  let users := List.insertionSort (· ≤ ·) (parts.map Prod.fst)
  { st with room_participants := parts,
            buf := bufTrim (st.buf ++ [("System", "=== ONLINE ===", false)] ++
              users.map (fun u =>
                ("System", if u = nick then u ++ " (You)" else u, false))) }

/-- `/help` (display text abbreviated to its headers). -/
def cmd_help (st : AppState) : AppState :=
  bufTrimmed
where
  bufTrimmed : AppState :=
    { st with buf := bufTrim (st.buf ++
        [("System", "=== In-Chat Commands ===", false),
         ("System", "=== CLI Commands ===", false)]) }

/-- `/stats`. -/
def cmd_stats (st : AppState) : AppState :=
  let total := (st.buf.filter (fun m => ¬(m.1 = "System"))).length
  let mine := (st.buf.filter (fun m => m.2.2)).length
  { st with buf := bufTrim (st.buf ++
      [("System", "Messages - Sent: " ++ toString mine ++ ", Received: " ++
        toString (total - mine) ++ ", Total: " ++ toString total, false)]) }

/-- `/lottery <sub_cmd>`. -/
def cmd_lottery (env : CmdEnv) (args : List Char) (room nick server : String)
    (f : Nat) (st : AppState) : AppState :=
  let sub_cmd := pyStrip (pyLower (pyPartition ' ' args).1)
  let lottery := lookupA st.lottery_state room
  let st :=
    if sub_cmd = "start".data then
      match lottery with
      | some _ =>
        { st with buf := st.buf ++
            [("System", "A lottery is already running in this room.", false)] }
      | none =>
        { st with outbox := enqueue_sys room nick .LOTTERY_START server f st.outbox }
    else if sub_cmd = "enter".data then
      match lottery with
      | none =>
        { st with buf := st.buf ++
            [("System", "There is no active lottery to enter.", false)] }
      | some lot =>
        if nick ∈ lot.participants then
          { st with buf := st.buf ++
              [("System", "You have already entered the lottery.", false)] }
        else
          { st with outbox := enqueue_sys room nick .LOTTERY_ENTER server f st.outbox }
    else if sub_cmd = "status".data then
      { st with buf := st.buf ++ [("System", "Lottery Status", false)] }
    else if sub_cmd = "draw".data then
      match lottery with
      | none =>
        { st with buf := st.buf ++
            [("System", "There is no active lottery to draw a winner from.", false)] }
      | some lot =>
        if lot.starter ≠ nick then
          { st with buf := st.buf ++
              [("System", "Only the lottery starter can draw a winner.", false)] }
        else if lot.participants = [] then
          { st with buf := st.buf ++
              [("System", "There are no participants in the lottery.", false)] }
        else
          let winner := lot.participants.getD
            (env.draw_index % lot.participants.length) ""
          { st with outbox := (enqueue_sys room nick
              (.LOTTERY_WINNER winner) server f st.outbox) }
    else if sub_cmd = "cancel".data then
      match lottery with
      | none =>
        { st with buf := st.buf ++
            [("System", "There is no active lottery to cancel.", false)] }
      | some lot =>
        if lot.starter ≠ nick then
          { st with buf := st.buf ++
              [("System", "Only the lottery starter can cancel it.", false)] }
        else
          { st with outbox := enqueue_sys room nick .LOTTERY_CANCEL server f st.outbox }
    else
      { st with buf := st.buf ++ [("System", "Lottery Commands", false)] }
  { st with buf := bufTrim st.buf }

/-- `/poll` (status / close / create). -/
def cmd_poll (args : List Char) (room nick server : String) (f : Nat)
    (st : AppState) : AppState :=
  let poll := lookupA st.poll_state room
  if pyLower args = "status".data then
    match poll with
    | none =>
      { st with buf := st.buf ++
          [("System", "No poll is currently active.", false)] }
    | some _ => { st with buf := st.buf ++ [("System", "Poll Status", false)] }
  else if pyLower args = "close".data then
    match poll with
    | none => { st with buf := st.buf ++ [("System", "No poll to close.", false)] }
    | some p =>
      if p.starter ≠ nick then
        { st with buf := st.buf ++
            [("System", "Only the poll starter can close it.", false)] }
      else
        { st with outbox := enqueue_sys room nick .POLL_CLOSE server f st.outbox }
  else
    match poll with
    | some _ =>
      { st with buf := st.buf ++
          [("System", "A poll is already running in this room.", false)] }
    | none =>
      let parts := (pySplit ['|'] args).map (fun p => pyStripQuotes (pyStrip p))
      if parts.length < 3 then
        { st with buf := st.buf ++ [("System", "Usage: /poll", false)] }
      else
        match parts with
        | [] => st
        | question :: options =>
          if 10 < options.length then
            { st with buf := st.buf ++
                [("System", "Maximum of 10 options allowed.", false)] }
          else
            { st with outbox := (enqueue_sys room nick
                (.POLL_START ⟨question⟩ (options.map (fun o => (⟨o⟩ : String))))
                server f st.outbox) }

/-- `/vote <n>`. -/
def cmd_vote (args : List Char) (room nick server : String) (f : Nat)
    (st : AppState) : AppState :=
  match lookupA st.poll_state room with
  | none =>
    { st with buf := st.buf ++
        [("System", "There is no active poll to vote in.", false)] }
  | some poll =>
    match pyToInt args with
    | none => { st with buf := st.buf ++ [("System", "Invalid choice.", false)] }
    | some choice =>
      if 1 ≤ choice ∧ choice ≤ (poll.options.length : Int) then
        { st with outbox := (enqueue_sys room nick
            (.POLL_VOTE (choice - 1).toNat) server f st.outbox) }
      else
        { st with buf := st.buf ++ [("System", "Invalid choice.", false)] }

/-- `/security` (display only). -/
def cmd_security (room : String) (is_public : Bool) (st : AppState) : AppState :=
  if is_public then
    { st with buf := bufTrim (st.buf ++
        [("System", "PUBLIC ROOM SECURITY", false)]) }
  else
    let pfs := match get_session_key st.sessions room with
      | some _ => ("System", "PFS Active", false)
      | none => ("System", "PFS Inactive", false)
    { st with buf := bufTrim (st.buf ++
        [("System", "SECURITY OVERVIEW", false), pfs]) }

/-- `/notifications`. -/
def cmd_notifications (st : AppState) : AppState :=
  { st with notifications_enabled := !st.notifications_enabled,
            buf := bufTrim (st.buf ++
              [("System", "Desktop notifications toggled.", false)]) }

/-- `/files` (display only). -/
def cmd_files (st : AppState) : AppState :=
  if st.ft.available_files = [] then
    { st with buf := bufTrim (st.buf ++
        [("System", "No files available for download.", false)]) }
  else
    { st with buf := bufTrim (st.buf ++
        [("System", "AVAILABLE FILES", false)] ++
        st.ft.available_files.map (fun kv => ("System", kv.1, false))) }

/-- `/download <file_id>`. -/
def cmd_download (env : CmdEnv) (args : List Char) (room nick server : String)
    (f : Nat) (st : AppState) : AppState :=
  let file_id := firstToken args
  if file_id = [] then
    { st with buf := st.buf ++ [("System", "Usage: /download <file_id>", false)] }
  else
    let fid : String := ⟨file_id⟩
    match lookupA st.ft.available_files fid with
    | none =>
      { st with buf := st.buf ++
          [("System", "File ID not found. Use /files.", false)] }
    | some info =>
      if ¬info.complete then
        { st with buf := st.buf ++ [("System", "File not complete", false)] }
      else
        match assemble_file_from_chunks fid f st.ft with
        | .error e =>
          { st with buf := st.buf ++
              [("System", "Download failed: " ++ e, false)] }
        | .ok _ =>
          if env.save_ok then
            let ob := enqueue_sys room nick (.FILE_DOWNLOAD fid) server f st.outbox
            { st with
              outbox := ob,
              buf := bufTrim (st.buf ++
                [("System", "Download Complete", false)]) }
          else
            { st with buf := bufTrim (st.buf ++
                [("System", "Save failed", false)]) }

/-- `/share <filepath>` (`os.path.expanduser` is I/O-neutral and omitted;
file reading and chunking are env oracles). -/
def cmd_share (env : CmdEnv) (args : List Char) (room nick server : String)
    (f : Nat) (st : AppState) : AppState :=
  let filepath := pyStrip args
  if filepath = [] then
    { st with buf := st.buf ++ [("System", "Usage: /share <filepath>", false)] }
  else if ¬env.file_exists then
    { st with buf := st.buf ++ [("System", "File not found", false)] }
  else
    let st := { st with buf := st.buf ++
        [("System", "Preparing to share", false)] }
    match env.split_result with
    | .error e => { st with buf := st.buf ++ [("System", e, false)] }
    | .ok (metadata, chunks) =>
      let ob := enqueue_file_transfer room nick metadata chunks server f st.outbox
      { st with
        outbox := ob,
        buf := bufTrim (st.buf ++ [("System", "Sharing Started", false)]) }

/-- `/server` (display only). -/
def cmd_server (env : CmdEnv) (server : String) (st : AppState) : AppState :=
  let status := match env.server_online with
    | some 200 => "Online"
    | some _ => "Status"
    | none => "Offline/Unreachable"
  { st with buf := bufTrim (st.buf ++
      [("System", "Server: " ++ server, false), ("System", status, false)]) }

/-- `/share-room [--uses N] [--ttl T]`. -/
def cmd_share_room (env : CmdEnv) (args : List Char) (room server : String)
    (secret : String) (is_public : Bool) (st : AppState) : AppState :=
  if is_public then
    { st with buf := st.buf ++ [("System", "Cannot share a public room.", false)] }
  else
    match shareLoop (splitWs args) none none with
    | .error true =>
      { st with buf := st.buf ++
          [("System", "Invalid argument for --uses. Must be a number.", false)] }
    | .error false =>
      { st with buf := st.buf ++
          [("System", "Invalid time format for --ttl.", false)] }
    | .ok _ =>
      let st := { st with buf := st.buf ++
          [("System", "Generating secure room link...", false)] }
      let payload_key := generate_link_components room.data secret.data
        server.data env.ephemeral_key
      match env.session_id with
      | none =>
        { st with buf := st.buf ++
            [("System", "Failed to create share link.", false)] }
      | some sid =>
        let url := construct_share_url sid (toString payload_key.2)
        { st with last_generated_link := url,
                  buf := bufTrim (st.buf ++
                    [("System", "Room Invitation Link", false)]) }

/-- `/copy-link`. -/
def cmd_copy_link (env : CmdEnv) (st : AppState) : AppState :=
  if st.last_generated_link = "" then
    { st with buf := bufTrim (st.buf ++
        [("System", "No link has been generated yet. Use /share-room first.", false)]) }
  else if env.copy_ok then
    { st with buf := bufTrim (st.buf ++
        [("System", "Link copied to clipboard!", false)]) }
  else
    { st with buf := bufTrim (st.buf ++
        [("System", "Could not copy to clipboard.", false),
         ("System", "Please install pyperclip to enable this feature.", false)]) }

/-- `handle_command(line, room, nick, server, f, buf, secret, is_public,
is_tor)`: dispatch on the slash command; returns the updated state and
`some "exit"` for `/exit`. -/
def handle_command (env : CmdEnv) (line : String) (room nick server : String)
    (f : Nat) (secret : String) (is_public _is_tor : Bool) (st : AppState) :
    AppState × Option String :=
  let cmd := (pyPartition ' ' (line.data.drop 1)).1
  let args := (pyPartition ' ' (line.data.drop 1)).2
  if cmd = "exit".data then (st, some "exit")
  else if cmd = "clear".data then (cmd_clear st, none)
  else if cmd = "clean-chat".data then
    (cmd_clean_chat args room nick server f is_public st, none)
  else if cmd = "who".data then (cmd_who env.now nick st, none)
  else if cmd = "help".data then (cmd_help st, none)
  else if cmd = "stats".data then (cmd_stats st, none)
  else if cmd = "lottery".data then
    (cmd_lottery env args room nick server f st, none)
  else if cmd = "poll".data then (cmd_poll args room nick server f st, none)
  else if cmd = "vote".data then (cmd_vote args room nick server f st, none)
  else if cmd = "security".data then (cmd_security room is_public st, none)
  else if cmd = "notifications".data then (cmd_notifications st, none)
  else if cmd = "files".data then (cmd_files st, none)
  else if cmd = "download".data then
    (cmd_download env args room nick server f st, none)
  else if cmd = "share".data then (cmd_share env args room nick server f st, none)
  else if cmd = "server".data then (cmd_server env server st, none)
  else if cmd = "share-room".data then
    (cmd_share_room env args room server secret is_public st, none)
  else if cmd = "copy-link".data then (cmd_copy_link env st, none)
  else
    ({ st with buf := bufTrim (st.buf ++
        [("System", "Unknown command", false)]) }, none)

theorem cmd_clean_chat_roster (args : List Char) (room nick server : String)
    (f : Nat) (is_public : Bool) (st : AppState) :
    (cmd_clean_chat args room nick server f is_public st).room_participants
      = st.room_participants := by
  simp only [cmd_clean_chat]
  split_ifs <;> rfl

theorem cmd_lottery_roster (env : CmdEnv) (args : List Char)
    (room nick server : String) (f : Nat) (st : AppState) :
    (cmd_lottery env args room nick server f st).room_participants
      = st.room_participants := by
  simp only [cmd_lottery]
  repeat' split
  all_goals rfl

theorem cmd_poll_roster (args : List Char) (room nick server : String)
    (f : Nat) (st : AppState) :
    (cmd_poll args room nick server f st).room_participants
      = st.room_participants := by
  simp only [cmd_poll]
  repeat' split
  all_goals rfl

theorem cmd_vote_roster (args : List Char) (room nick server : String)
    (f : Nat) (st : AppState) :
    (cmd_vote args room nick server f st).room_participants
      = st.room_participants := by
  simp only [cmd_vote]
  repeat' split
  all_goals rfl

theorem cmd_security_roster (room : String) (is_public : Bool) (st : AppState) :
    (cmd_security room is_public st).room_participants = st.room_participants := by
  simp only [cmd_security]
  repeat' split
  all_goals rfl

theorem cmd_files_roster (st : AppState) :
    (cmd_files st).room_participants = st.room_participants := by
  simp only [cmd_files]
  split_ifs <;> rfl

theorem cmd_download_roster (env : CmdEnv) (args : List Char)
    (room nick server : String) (f : Nat) (st : AppState) :
    (cmd_download env args room nick server f st).room_participants
      = st.room_participants := by
  simp only [cmd_download]
  repeat' split
  all_goals rfl

theorem cmd_share_roster (env : CmdEnv) (args : List Char)
    (room nick server : String) (f : Nat) (st : AppState) :
    (cmd_share env args room nick server f st).room_participants
      = st.room_participants := by
  simp only [cmd_share]
  repeat' split
  all_goals rfl

theorem cmd_server_roster (env : CmdEnv) (server : String) (st : AppState) :
    (cmd_server env server st).room_participants = st.room_participants := by
  simp only [cmd_server]

theorem cmd_share_room_roster (env : CmdEnv) (args : List Char)
    (room server secret : String) (is_public : Bool) (st : AppState) :
    (cmd_share_room env args room server secret is_public st).room_participants
      = st.room_participants := by
  simp only [cmd_share_room]
  repeat' split
  all_goals rfl

theorem cmd_copy_link_roster (env : CmdEnv) (st : AppState) :
    (cmd_copy_link env st).room_participants = st.room_participants := by
  simp only [cmd_copy_link]
  split_ifs <;> rfl

/-- **C2 counterexample** — `/who` mutates the roster map directly inside
the command handler (`state.room_participants[nick] = time.time()`,
`commands.py:69`): from an empty roster it inserts the local nick. -/
theorem C2_counterexample :
    (handle_command ⟨111, 0, none, none, false, .error "", false, false, 0⟩
        "/who" "room1" "alice" "srv" 0 "sec" false false
        ⟨[], true, emptyFT, [], [], [], "", [], []⟩).1.room_participants
      = [("alice", 111)] ∧
    ([] : List (String × Int)) ≠ [("alice", 111)] := by
  exact ⟨rfl, by decide⟩

set_option maxRecDepth 4000 in
/-- **C2 (amended)** — the roster map is changed by `handle_command` only
for the `/who` command, which refreshes the local nick's own last-seen
entry; every other slash command leaves `room_participants` unchanged. -/
theorem C2_roster_mutation (env : CmdEnv) (line : String)
    (room nick server : String) (f : Nat) (secret : String)
    (is_public is_tor : Bool) (st : AppState) :
    ((pyPartition ' ' (line.data.drop 1)).1 ≠ "who".data →
      (handle_command env line room nick server f secret is_public is_tor
        st).1.room_participants = st.room_participants) ∧
    (handle_command env "/who" room nick server f secret is_public is_tor
      st).1.room_participants = setA st.room_participants nick env.now := by
  constructor
  · intro hw
    simp only [handle_command]
    by_cases h1 : (pyPartition ' ' (line.data.drop 1)).1 = "exit".data
    · rw [if_pos h1]
    rw [if_neg h1]
    by_cases h2 : (pyPartition ' ' (line.data.drop 1)).1 = "clear".data
    · rw [if_pos h2]
      rfl
    rw [if_neg h2]
    by_cases h3 : (pyPartition ' ' (line.data.drop 1)).1 = "clean-chat".data
    · rw [if_pos h3]
      exact cmd_clean_chat_roster _ _ _ _ _ _ st
    rw [if_neg h3]
    by_cases h4 : (pyPartition ' ' (line.data.drop 1)).1 = "who".data
    · rw [if_pos h4]
      exact absurd h4 hw
    rw [if_neg h4]
    by_cases h5 : (pyPartition ' ' (line.data.drop 1)).1 = "help".data
    · rw [if_pos h5]
      rfl
    rw [if_neg h5]
    by_cases h6 : (pyPartition ' ' (line.data.drop 1)).1 = "stats".data
    · rw [if_pos h6]
      rfl
    rw [if_neg h6]
    by_cases h7 : (pyPartition ' ' (line.data.drop 1)).1 = "lottery".data
    · rw [if_pos h7]
      exact cmd_lottery_roster env _ _ _ _ _ st
    rw [if_neg h7]
    by_cases h8 : (pyPartition ' ' (line.data.drop 1)).1 = "poll".data
    · rw [if_pos h8]
      exact cmd_poll_roster _ _ _ _ _ st
    rw [if_neg h8]
    by_cases h9 : (pyPartition ' ' (line.data.drop 1)).1 = "vote".data
    · rw [if_pos h9]
      exact cmd_vote_roster _ _ _ _ _ st
    rw [if_neg h9]
    by_cases h10 : (pyPartition ' ' (line.data.drop 1)).1 = "security".data
    · rw [if_pos h10]
      exact cmd_security_roster room is_public st
    rw [if_neg h10]
    by_cases h11 : (pyPartition ' ' (line.data.drop 1)).1 = "notifications".data
    · rw [if_pos h11]
      rfl
    rw [if_neg h11]
    by_cases h12 : (pyPartition ' ' (line.data.drop 1)).1 = "files".data
    · rw [if_pos h12]
      exact cmd_files_roster st
    rw [if_neg h12]
    by_cases h13 : (pyPartition ' ' (line.data.drop 1)).1 = "download".data
    · rw [if_pos h13]
      exact cmd_download_roster env _ _ _ _ _ st
    rw [if_neg h13]
    by_cases h14 : (pyPartition ' ' (line.data.drop 1)).1 = "share".data
    · rw [if_pos h14]
      exact cmd_share_roster env _ _ _ _ _ st
    rw [if_neg h14]
    by_cases h15 : (pyPartition ' ' (line.data.drop 1)).1 = "server".data
    · rw [if_pos h15]
      exact cmd_server_roster env server st
    rw [if_neg h15]
    by_cases h16 : (pyPartition ' ' (line.data.drop 1)).1 = "share-room".data
    · rw [if_pos h16]
      exact cmd_share_room_roster env _ _ _ _ _ st
    rw [if_neg h16]
    by_cases h17 : (pyPartition ' ' (line.data.drop 1)).1 = "copy-link".data
    · rw [if_pos h17]
      exact cmd_copy_link_roster env st
    rw [if_neg h17]
  · have hd : handle_command env "/who" room nick server f secret is_public
        is_tor st = (cmd_who env.now nick st, none) := by
      simp only [handle_command]
      rw [if_neg (by decide), if_neg (by decide), if_neg (by decide),
        if_pos (by decide)]
    rw [hd]
    rfl

/-- Witness for C2: with a concrete env, state and nick, `/help` leaves the
roster unchanged and `/who` refreshes the local nick's entry. -/
theorem C2_roster_mutation_witness :
    (handle_command ⟨111, 0, none, none, false, .error "", false, false, 0⟩
        "/help" "room1" "alice" "srv" 0 "sec" false false
        ⟨[("bob", 5)], true, emptyFT, [], [], [], "", [], []⟩).1.room_participants
      = [("bob", 5)] ∧
    (handle_command ⟨111, 0, none, none, false, .error "", false, false, 0⟩
        "/who" "room1" "alice" "srv" 0 "sec" false false
        ⟨[("bob", 5)], true, emptyFT, [], [], [], "", [], []⟩).1.room_participants
      = setA [("bob", 5)] "alice" 111 :=
  ⟨(C2_roster_mutation ⟨111, 0, none, none, false, .error "", false, false, 0⟩
      "/help" "room1" "alice" "srv" 0 "sec" false false
      ⟨[("bob", 5)], true, emptyFT, [], [], [], "", [], []⟩).1 (by decide),
   (C2_roster_mutation ⟨111, 0, none, none, false, .error "", false, false, 0⟩
      "/who" "room1" "alice" "srv" 0 "sec" false false
      ⟨[("bob", 5)], true, emptyFT, [], [], [], "", [], []⟩).2⟩

set_option maxRecDepth 8000 in
/-- **C7** — protocol/state errors are rejected locally: a `/lottery draw`
or `/lottery cancel` with no active lottery, a `/poll close` or `/vote`
with no active poll, or a draw/cancel/close issued by a nick that is not
the recorded starter, appends a user-visible error message to the buffer
and enqueues nothing on the outbox queue. -/
theorem C7_protocol_errors_local (env : CmdEnv) (room nick server : String)
    (f : Nat) (secret : String) (is_public is_tor : Bool) (st : AppState) :
    (lookupA st.lottery_state room = none →
      (handle_command env "/lottery draw" room nick server f secret is_public
          is_tor st).1.outbox = st.outbox ∧
      (handle_command env "/lottery draw" room nick server f secret is_public
          is_tor st).1.buf = bufTrim (st.buf ++ [("System",
            "There is no active lottery to draw a winner from.", false)])) ∧
    (lookupA st.lottery_state room = none →
      (handle_command env "/lottery cancel" room nick server f secret is_public
          is_tor st).1.outbox = st.outbox ∧
      (handle_command env "/lottery cancel" room nick server f secret is_public
          is_tor st).1.buf = bufTrim (st.buf ++ [("System",
            "There is no active lottery to cancel.", false)])) ∧
    (∀ lot, lookupA st.lottery_state room = some lot → lot.starter ≠ nick →
      (handle_command env "/lottery draw" room nick server f secret is_public
          is_tor st).1.outbox = st.outbox ∧
      (handle_command env "/lottery draw" room nick server f secret is_public
          is_tor st).1.buf = bufTrim (st.buf ++ [("System",
            "Only the lottery starter can draw a winner.", false)])) ∧
    (∀ lot, lookupA st.lottery_state room = some lot → lot.starter ≠ nick →
      (handle_command env "/lottery cancel" room nick server f secret is_public
          is_tor st).1.outbox = st.outbox ∧
      (handle_command env "/lottery cancel" room nick server f secret is_public
          is_tor st).1.buf = bufTrim (st.buf ++ [("System",
            "Only the lottery starter can cancel it.", false)])) ∧
    (lookupA st.poll_state room = none →
      (handle_command env "/poll close" room nick server f secret is_public
          is_tor st).1.outbox = st.outbox ∧
      (handle_command env "/poll close" room nick server f secret is_public
          is_tor st).1.buf = st.buf ++ [("System", "No poll to close.", false)] ∧
      (handle_command env "/vote 1" room nick server f secret is_public
          is_tor st).1.outbox = st.outbox ∧
      (handle_command env "/vote 1" room nick server f secret is_public
          is_tor st).1.buf = st.buf ++ [("System",
            "There is no active poll to vote in.", false)]) ∧
    (∀ p, lookupA st.poll_state room = some p → p.starter ≠ nick →
      (handle_command env "/poll close" room nick server f secret is_public
          is_tor st).1.outbox = st.outbox ∧
      (handle_command env "/poll close" room nick server f secret is_public
          is_tor st).1.buf = st.buf ++ [("System",
            "Only the poll starter can close it.", false)]) := by
  have hdD : handle_command env "/lottery draw" room nick server f secret
      is_public is_tor st
      = (cmd_lottery env "draw".data room nick server f st, none) := by
    simp only [handle_command]
    rw [if_neg (by decide), if_neg (by decide), if_neg (by decide),
      if_neg (by decide), if_neg (by decide), if_neg (by decide),
      if_pos (by decide)]
    rfl
  have hdC : handle_command env "/lottery cancel" room nick server f secret
      is_public is_tor st
      = (cmd_lottery env "cancel".data room nick server f st, none) := by
    simp only [handle_command]
    rw [if_neg (by decide), if_neg (by decide), if_neg (by decide),
      if_neg (by decide), if_neg (by decide), if_neg (by decide),
      if_pos (by decide)]
    rfl
  have hdP : handle_command env "/poll close" room nick server f secret
      is_public is_tor st
      = (cmd_poll "close".data room nick server f st, none) := by
    simp only [handle_command]
    rw [if_neg (by decide), if_neg (by decide), if_neg (by decide),
      if_neg (by decide), if_neg (by decide), if_neg (by decide),
      if_neg (by decide), if_pos (by decide)]
    rfl
  have hdV : handle_command env "/vote 1" room nick server f secret
      is_public is_tor st
      = (cmd_vote "1".data room nick server f st, none) := by
    simp only [handle_command]
    rw [if_neg (by decide), if_neg (by decide), if_neg (by decide),
      if_neg (by decide), if_neg (by decide), if_neg (by decide),
      if_neg (by decide), if_neg (by decide), if_pos (by decide)]
    rfl
  refine ⟨?_, ?_, ?_, ?_, ?_, ?_⟩
  · intro h
    have hc : cmd_lottery env "draw".data room nick server f st
        = { st with buf := bufTrim (st.buf ++ [("System",
            "There is no active lottery to draw a winner from.", false)]) } := by
      simp +decide only [cmd_lottery, h, ite_true, ite_false]
    rw [hdD, hc]
    exact ⟨rfl, rfl⟩
  · intro h
    have hc : cmd_lottery env "cancel".data room nick server f st
        = { st with buf := bufTrim (st.buf ++ [("System",
            "There is no active lottery to cancel.", false)]) } := by
      simp +decide only [cmd_lottery, h, ite_true, ite_false]
    rw [hdC, hc]
    exact ⟨rfl, rfl⟩
  · intro lot h hne
    have hc : cmd_lottery env "draw".data room nick server f st
        = { st with buf := bufTrim (st.buf ++ [("System",
            "Only the lottery starter can draw a winner.", false)]) } := by
      simp +decide only [cmd_lottery, h, ite_true, ite_false]
      rw [if_pos hne]
    rw [hdD, hc]
    exact ⟨rfl, rfl⟩
  · intro lot h hne
    have hc : cmd_lottery env "cancel".data room nick server f st
        = { st with buf := bufTrim (st.buf ++ [("System",
            "Only the lottery starter can cancel it.", false)]) } := by
      simp +decide only [cmd_lottery, h, ite_true, ite_false]
      rw [if_pos hne]
    rw [hdC, hc]
    exact ⟨rfl, rfl⟩
  · intro h
    have hcP : cmd_poll "close".data room nick server f st
        = { st with buf := st.buf ++ [("System", "No poll to close.", false)] } := by
      simp +decide only [cmd_poll, h, ite_true, ite_false]
    have hcV : cmd_vote "1".data room nick server f st
        = { st with buf := st.buf ++ [("System",
            "There is no active poll to vote in.", false)] } := by
      simp only [cmd_vote, h]
    rw [hdP, hdV, hcP, hcV]
    exact ⟨rfl, rfl, rfl, rfl⟩
  · intro p h hne
    have hc : cmd_poll "close".data room nick server f st
        = { st with buf := st.buf ++ [("System",
            "Only the poll starter can close it.", false)] } := by
      simp +decide only [cmd_poll, h, ite_true, ite_false]
      rw [if_pos hne]
    rw [hdP, hc]
    exact ⟨rfl, rfl⟩

set_option maxRecDepth 8000 in
/-- Witness for C7: concrete instances of the no-active-lottery,
no-active-poll and non-starter error paths. -/
theorem C7_protocol_errors_local_witness :
    (handle_command ⟨111, 0, none, none, false, .error "", false, false, 0⟩
        "/lottery draw" "room1" "alice" "srv" 0 "sec" false false
        ⟨[], true, emptyFT, [], [], [], "", [], []⟩).1.outbox = [] ∧
    (handle_command ⟨111, 0, none, none, false, .error "", false, false, 0⟩
        "/poll close" "room1" "alice" "srv" 0 "sec" false false
        ⟨[], true, emptyFT, [], [], [], "", [], []⟩).1.buf
      = [] ++ [("System", "No poll to close.", false)] ∧
    (handle_command ⟨111, 0, none, none, false, .error "", false, false, 0⟩
        "/lottery cancel" "room1" "alice" "srv" 0 "sec" false false
        ⟨[], true, emptyFT, [], [("room1", ⟨"bob", []⟩)], [], "", [], []⟩).1.buf
      = bufTrim ([] ++ [("System",
          "Only the lottery starter can cancel it.", false)]) ∧
    (handle_command ⟨111, 0, none, none, false, .error "", false, false, 0⟩
        "/poll close" "room1" "alice" "srv" 0 "sec" false false
        ⟨[], true, emptyFT, [], [],
          [("room1", ⟨"bob", "q", ["a"], []⟩)], "", [], []⟩).1.buf
      = [] ++ [("System", "Only the poll starter can close it.", false)] := by
  refine ⟨?_, ?_, ?_, ?_⟩
  · exact ((C7_protocol_errors_local
      ⟨111, 0, none, none, false, .error "", false, false, 0⟩
      "room1" "alice" "srv" 0 "sec" false false
      ⟨[], true, emptyFT, [], [], [], "", [], []⟩).1 rfl).1
  · exact ((C7_protocol_errors_local
      ⟨111, 0, none, none, false, .error "", false, false, 0⟩
      "room1" "alice" "srv" 0 "sec" false false
      ⟨[], true, emptyFT, [], [], [], "", [], []⟩).2.2.2.2.1 rfl).2.1
  · exact ((C7_protocol_errors_local
      ⟨111, 0, none, none, false, .error "", false, false, 0⟩
      "room1" "alice" "srv" 0 "sec" false false
      ⟨[], true, emptyFT, [], [("room1", ⟨"bob", []⟩)], [], "", [], []⟩
      ).2.2.2.1 ⟨"bob", []⟩ (by decide) (by decide)).2
  · exact ((C7_protocol_errors_local
      ⟨111, 0, none, none, false, .error "", false, false, 0⟩
      "room1" "alice" "srv" 0 "sec" false false
      ⟨[], true, emptyFT, [], [],
        [("room1", ⟨"bob", "q", ["a"], []⟩)], "", [], []⟩
      ).2.2.2.2.2 ⟨"bob", "q", ["a"], []⟩ (by decide) (by decide)).2
